import Mathlib

/-!
Verification development for the MM-COOKBOOK recipe-management application.

Strings are modelled as lists of Unicode code points (`List Nat`); the
relevant Python string primitives (`str.strip`, `str.lower`, `str.title`)
are embedded for the ASCII range, which covers every literal the
application's normalization and duplicate-detection logic manipulates.
The relational store is a record of row lists, and each persistence
operation of `recipes/models.py` and `recipes/serializers.py` is embedded
as an explicit state-passing function on that store.
-/

deriving instance DecidableEq for Except

/-- Code points of a string literal. -/
def codes (s : String) : List Nat := s.data.map Char.toNat

/-- ASCII lowering of one code point, the behaviour of Python `str.lower`
on the ASCII range. -/
def pyLowerChar (c : Nat) : Nat := if 65 ≤ c ∧ c ≤ 90 then c + 32 else c

/-- ASCII uppering of one code point, the behaviour of Python `str.upper`
on the ASCII range. -/
def pyUpperChar (c : Nat) : Nat := if 97 ≤ c ∧ c ≤ 122 then c - 32 else c

/-- Python `str.lower` on a code-point list. -/
def pyLower (s : List Nat) : List Nat := s.map pyLowerChar

/-- The default whitespace stripped by Python `str.strip`. -/
def isPySpace (c : Nat) : Bool :=
  decide (c = 32 ∨ c = 9 ∨ c = 10 ∨ c = 13 ∨ c = 11 ∨ c = 12)

/-- Python `str.strip`: drop whitespace from both ends. -/
def pyStrip (s : List Nat) : List Nat :=
  ((s.dropWhile isPySpace).reverse.dropWhile isPySpace).reverse

/-- An ASCII letter. -/
def isAsciiAlpha (c : Nat) : Bool :=
  decide ((65 ≤ c ∧ c ≤ 90) ∨ (97 ≤ c ∧ c ≤ 122))

/-- Worker for `pyTitle`: the flag records whether the previous character
was a letter. -/
def pyTitleGo : Bool → List Nat → List Nat
  | _, [] => []
  | prevAlpha, c :: rest =>
    (if prevAlpha then pyLowerChar c else pyUpperChar c) :: pyTitleGo (isAsciiAlpha c) rest

/-- Python `str.title`: capitalize the first letter of each word and
lower-case the rest. -/
def pyTitle (s : List Nat) : List Nat := pyTitleGo false s

/-- `BaseNormalizationMixin._normalize_name` from `recipes/models.py`:
`name.strip().lower()`.  The three keyword flags are accepted exactly as
in the source and, exactly as in the source, do not influence the
result. -/
def normalizeNameM (name : List Nat) (isIngredient isUnit isAbbr : Bool) : List Nat :=
  pyLower (pyStrip name)

/-- `BaseNormalizationMixin._normalize_name` from `recipes/serializers.py`:
`name.strip().lower()`. -/
def normalizeNameS (name : List Nat) : List Nat := pyLower (pyStrip name)

/-- Django `iexact` lookup: case-insensitive equality. -/
def iexact (a b : List Nat) : Bool := decide (pyLower a = pyLower b)

/-- The similar-term groups of `_get_similar_terms` in `recipes/models.py`. -/
def similarGroupsModels : List (List (List Nat)) :=
  [[codes ("pieces"), codes ("piece"), codes ("pcs"), codes ("pc")],
   [codes ("tablespoons"), codes ("tablespoon"), codes ("tbsp"), codes ("tbs")],
   [codes ("teaspoons"), codes ("teaspoon"), codes ("tsp"), codes ("ts")],
   [codes ("pounds"), codes ("pound"), codes ("lbs"), codes ("lb")],
   [codes ("ounces"), codes ("ounce"), codes ("oz")],
   [codes ("cups"), codes ("cup"), codes ("c")],
   [codes ("minutes"), codes ("minute"), codes ("mins"), codes ("min")],
   [codes ("hours"), codes ("hour"), codes ("hrs"), codes ("hr")],
   [codes ("grams"), codes ("gram"), codes ("g")],
   [codes ("kilograms"), codes ("kilogram"), codes ("kg")]]

/-- The similar-term groups of `_get_similar_terms` in
`recipes/serializers.py` (the serializer copy omits the minutes and hours
groups). -/
def similarGroupsSerializers : List (List (List Nat)) :=
  [[codes ("pieces"), codes ("piece"), codes ("pcs"), codes ("pc")],
   [codes ("tablespoons"), codes ("tablespoon"), codes ("tbsp"), codes ("tbs")],
   [codes ("teaspoons"), codes ("teaspoon"), codes ("tsp"), codes ("ts")],
   [codes ("pounds"), codes ("pound"), codes ("lbs"), codes ("lb")],
   [codes ("ounces"), codes ("ounce"), codes ("oz")],
   [codes ("cups"), codes ("cup"), codes ("c")],
   [codes ("grams"), codes ("gram"), codes ("g")],
   [codes ("kilograms"), codes ("kilogram"), codes ("kg")]]

/-- `_get_similar_terms`: strip and lower the name, keep it, and widen by
the first similar-term group containing it; duplicates removed as by
`list(set(...))`. -/
def getSimilarTerms (groups : List (List (List Nat))) (name : List Nat) : List (List Nat) :=
  let n := pyLower (pyStrip name)
  let extended :=
    match groups.find? (fun g => decide (n ∈ g)) with
    | some g => n :: g
    | none => [n]
  extended.dedup

/-- A row of the `Ingredient` table. -/
structure IngredientRow where
  id : Nat
  name : List Nat
deriving DecidableEq

/-- A row of the `Unit` table. -/
structure UnitRow where
  id : Nat
  name : List Nat
  abbr : List Nat
deriving DecidableEq

/-- A row of the `Dish` table. -/
structure DishRow where
  id : Nat
  name : List Nat
  description : List Nat
  prepTime : Nat
  cookTime : Nat
deriving DecidableEq

/-- A row of the `DishIngredient` join table.  The decimal quantity
(`max_digits=10, decimal_places=2`) is modelled as an integer count of
hundredths. -/
structure DishIngredientRow where
  dish : Nat
  ingredient : Nat
  quantity : Int
  unit : Nat
deriving DecidableEq

/-- A row of the `CookingStep` table. -/
structure CookingStepRow where
  dish : Nat
  stepNumber : Nat
  instruction : List Nat
deriving DecidableEq

/-- A row of the `GroceryItem` table. -/
structure GroceryRow where
  id : Nat
  name : List Nat
  inCart : Bool
  isOptional : Bool
deriving DecidableEq

/-- The relational store, with per-table primary-key counters. -/
structure Store where
  ingredients : List IngredientRow
  units : List UnitRow
  dishes : List DishRow
  dishIngredients : List DishIngredientRow
  steps : List CookingStepRow
  groceries : List GroceryRow
  nextIngredientId : Nat
  nextUnitId : Nat
  nextDishId : Nat
  nextGroceryId : Nat
deriving DecidableEq

/-- The empty store. -/
def emptyStore : Store :=
  { ingredients := [], units := [], dishes := [], dishIngredients := [],
    steps := [], groceries := [], nextIngredientId := 0, nextUnitId := 0,
    nextDishId := 0, nextGroceryId := 0 }

/-- Field of a `Unit` conflict error. -/
inductive UField where
  | nameField
  | abbrField
deriving DecidableEq

/-- Errors raised by the embedded persistence operations. -/
inductive WErr where
  | blankField
  | tooLong
  | ingredientConflict (id : Nat) (name : List Nat)
  | unitConflict (field : UField) (id : Nat) (name : List Nat)
  | uniqueViolation
  | missingIngredient
  | missingUnit
  | duplicateDishIngredient
  | duplicateStepNumber
  | duplicateDishName
  | dishNotFound
  | protectedUnit
deriving DecidableEq

/-- `Ingredient.clean` from `recipes/models.py`: reject when any
case-insensitive similar-term duplicate exists, reporting the first
conflicting row's id and name. -/
def ingredientCleanErr (s : Store) (selfPk : Option Nat) (name : List Nat) : Option WErr :=
  let normalized := normalizeNameM name true false false
  let terms := getSimilarTerms similarGroupsModels normalized
  let dups := s.ingredients.filter
    (fun r => (terms.any (fun t => iexact r.name t)) && decide (some r.id ≠ selfPk))
  match dups with
  | [] => none
  | c :: _ => some (WErr.ingredientConflict c.id c.name)

/-- Field-level checks of `Ingredient.name` run by `full_clean`
(`blank=False`, `max_length=100`). -/
def ingredientFieldErr (name : List Nat) : Option WErr :=
  if name = [] then some WErr.blankField
  else if name.length > 100 then some WErr.tooLong
  else none

/-- `Ingredient.full_clean`: field checks, then `Ingredient.clean`, then
the exact-match unique validation of `name` (`unique=True`). -/
def ingredientFullClean (s : Store) (selfPk : Option Nat) (name : List Nat) : Option WErr :=
  match ingredientFieldErr name with
  | some e => some e
  | none =>
    match ingredientCleanErr s selfPk name with
    | some e => some e
    | none =>
      if s.ingredients.any (fun r => decide (r.name = name) && decide (some r.id ≠ selfPk))
      then some WErr.uniqueViolation
      else none

/-- `Ingredient.save` for a new row: normalize the name, run
`full_clean`, then insert with a fresh id. -/
def ingredientSaveNew (s : Store) (raw : List Nat) : Except WErr (Store × Nat) :=
  let n := normalizeNameM raw true false false
  match ingredientFullClean s none n with
  | some e => .error e
  | none =>
    let i := s.nextIngredientId
    .ok ({ s with ingredients := s.ingredients ++ [⟨i, n⟩],
                  nextIngredientId := i + 1 }, i)

/-- `Ingredient.save` for an existing row `pk`: normalize, `full_clean`
excluding `pk`, then update the row in place. -/
def ingredientSaveUpdate (s : Store) (pk : Nat) (raw : List Nat) : Except WErr Store :=
  let n := normalizeNameM raw true false false
  match ingredientFullClean s (some pk) n with
  | some e => .error e
  | none =>
    .ok { s with ingredients :=
            s.ingredients.map (fun r => if r.id = pk then { r with name := n } else r) }

/-- Predicate of the `Unit.clean` conflict query: any similar term matches
the row's name or abbreviation case-insensitively. -/
def unitTermMatch (terms : List (List Nat)) (u : UnitRow) : Bool :=
  terms.any (fun t => iexact u.name t || iexact u.abbr t)

/-- `Unit.clean` from `recipes/models.py`: check the name, then (when an
abbreviation is present) the abbreviation, against all units' names and
abbreviations widened by similar terms; report the first conflicting
row's id and name. -/
def unitCleanErr (s : Store) (selfPk : Option Nat) (name abbr : List Nat) : Option WErr :=
  let nameTerms := getSimilarTerms similarGroupsModels name
  match s.units.filter (fun u => unitTermMatch nameTerms u && decide (some u.id ≠ selfPk)) with
  | c :: _ => some (WErr.unitConflict UField.nameField c.id c.name)
  | [] =>
    if abbr ≠ [] then
      let abbrTerms := getSimilarTerms similarGroupsModels abbr
      match s.units.filter (fun u => unitTermMatch abbrTerms u && decide (some u.id ≠ selfPk)) with
      | c :: _ => some (WErr.unitConflict UField.abbrField c.id c.name)
      | [] => none
    else none

/-- Field-level checks of `Unit` run by `full_clean` (`name` has
`blank=False`, `max_length=20`; `abbreviation` has `max_length=10`). -/
def unitFieldErr (name abbr : List Nat) : Option WErr :=
  if name = [] then some WErr.blankField
  else if name.length > 20 then some WErr.tooLong
  else if abbr.length > 10 then some WErr.tooLong
  else none

/-- `Unit.full_clean`: field checks, then `Unit.clean`, then the
exact-match unique validation of `name`. -/
def unitFullClean (s : Store) (selfPk : Option Nat) (name abbr : List Nat) : Option WErr :=
  match unitFieldErr name abbr with
  | some e => some e
  | none =>
    match unitCleanErr s selfPk name abbr with
    | some e => some e
    | none =>
      if s.units.any (fun u => decide (u.name = name) && decide (some u.id ≠ selfPk))
      then some WErr.uniqueViolation
      else none

/-- `Unit.save` for a new row: normalize the name, normalize the
abbreviation when truthy, run `full_clean`, then insert with a fresh
id. -/
def unitSaveNew (s : Store) (rawName rawAbbr : List Nat) : Except WErr (Store × Nat) :=
  let n := normalizeNameM rawName false true false
  let a := if rawAbbr ≠ [] then normalizeNameM rawAbbr false false true else []
  match unitFullClean s none n a with
  | some e => .error e
  | none =>
    let i := s.nextUnitId
    .ok ({ s with units := s.units ++ [⟨i, n, a⟩], nextUnitId := i + 1 }, i)

/-- `Unit.save` for an existing row `pk`. -/
def unitSaveUpdate (s : Store) (pk : Nat) (rawName rawAbbr : List Nat) : Except WErr Store :=
  let n := normalizeNameM rawName false true false
  let a := if rawAbbr ≠ [] then normalizeNameM rawAbbr false false true else []
  match unitFullClean s (some pk) n a with
  | some e => .error e
  | none =>
    .ok { s with units :=
            s.units.map (fun u => if u.id = pk then { u with name := n, abbr := a } else u) }

/-- `IngredientSerializer.validate_name`: normalize the value and reject
when any similar-term duplicate exists (excluding the instance being
updated); on success the serializer keeps the normalized value. -/
def ingredientValidateName (s : Store) (selfPk : Option Nat) (value : List Nat) : Option WErr :=
  let normalized := normalizeNameS value
  let terms := getSimilarTerms similarGroupsSerializers normalized
  let existing := s.ingredients.filter
    (fun r => (terms.any (fun t => iexact r.name t)) && decide (some r.id ≠ selfPk))
  match existing with
  | [] => none
  | c :: _ => some (WErr.ingredientConflict c.id c.name)

/-- `IngredientSerializer.create`: `validate_name` (keeping the
normalized value), model `full_clean`, then `Ingredient.save`. -/
def ingredientSerializerCreate (s : Store) (raw : List Nat) : Except WErr (Store × Nat) :=
  match ingredientValidateName s none raw with
  | some e => .error e
  | none =>
    let v := normalizeNameS raw
    match ingredientFullClean s none v with
    | some e => .error e
    | none => ingredientSaveNew s v

/-- `IngredientSerializer.update`: `validate_name` excluding the
instance, then `Ingredient.save` on the existing row. -/
def ingredientSerializerUpdate (s : Store) (pk : Nat) (raw : List Nat) : Except WErr Store :=
  match ingredientValidateName s (some pk) raw with
  | some e => .error e
  | none => ingredientSaveUpdate s pk (normalizeNameS raw)

/-- `UnitSerializer.create`: reject a blank name, blank out a
whitespace-only abbreviation, validate a normalized temporary instance
with model logic, then `Unit.save`. -/
def unitSerializerCreate (s : Store) (rawName rawAbbr : List Nat) : Except WErr (Store × Nat) :=
  if pyStrip rawName = [] then .error WErr.blankField
  else
    let a0 := if pyStrip rawAbbr = [] then [] else rawAbbr
    let n := normalizeNameS rawName
    let a := if a0 ≠ [] then normalizeNameS a0 else []
    match unitFullClean s none n a with
    | some e => .error e
    | none => unitSaveNew s n a

/-- `UnitSerializer.update`. -/
def unitSerializerUpdate (s : Store) (pk : Nat) (rawName rawAbbr : List Nat) : Except WErr Store :=
  if pyStrip rawName = [] then .error WErr.blankField
  else
    let a0 := if pyStrip rawAbbr = [] then [] else rawAbbr
    let n := normalizeNameS rawName
    let a := if a0 ≠ [] then normalizeNameS a0 else []
    match unitFullClean s (some pk) n a with
    | some e => .error e
    | none => unitSaveUpdate s pk n a

/-- `DishIngredientSerializer._get_or_create_ingredient`: search all
ingredients for a similar-term case-insensitive match and reuse the
first one; otherwise validate and save a new ingredient named
`name.strip()`. -/
def getOrCreateIngredient (s : Store) (raw : List Nat) : Except WErr (Store × Nat) :=
  let terms := getSimilarTerms similarGroupsSerializers (normalizeNameS raw)
  match s.ingredients.find? (fun r => terms.any (fun t => iexact r.name t)) with
  | some r => .ok (s, r.id)
  | none =>
    let candidate := pyStrip raw
    match ingredientFullClean s none candidate with
    | some e => .error e
    | none => ingredientSaveNew s candidate

/-- `DishIngredientSerializer._get_or_create_unit`: search all units for
a similar-term match on name or abbreviation and reuse the first one;
otherwise validate and save a new unit named `name.strip()`. -/
def getOrCreateUnit (s : Store) (raw : List Nat) : Except WErr (Store × Nat) :=
  let terms := getSimilarTerms similarGroupsSerializers (normalizeNameS raw)
  match s.units.find? (fun u => unitTermMatch terms u) with
  | some u => .ok (s, u.id)
  | none =>
    let candidate := pyStrip raw
    match unitFullClean s none candidate [] with
    | some e => .error e
    | none => unitSaveNew s candidate []

/-- One embedded ingredient line of a dish payload.  `ingredientName` /
`unitName` being `some` models the corresponding key being present in
the request data. -/
structure IngLine where
  ingredientId : Option Nat
  ingredientName : Option (List Nat)
  unitId : Option Nat
  unitName : Option (List Nat)
  quantity : Int
deriving DecidableEq

/-- One embedded step of a dish payload. -/
structure StepLine where
  stepNumber : Nat
  instruction : List Nat
deriving DecidableEq

/-- A dish-create payload with embedded ingredient lines and steps. -/
structure DishPayload where
  name : List Nat
  description : List Nat
  prepTime : Nat
  cookTime : Nat
  lines : List IngLine
  stepLines : List StepLine
deriving DecidableEq

/-- `DishIngredient.objects.create`: the database enforces the
`(dish, ingredient)` uniqueness and the two `NOT NULL` foreign keys; no
model validators run. -/
def createLineInsert (s : Store) (dishId : Nat) (qty : Int)
    (ingOpt unitOpt : Option Nat) : Store × Option WErr :=
  match ingOpt with
  | none => (s, some WErr.missingIngredient)
  | some ingId =>
    match unitOpt with
    | none => (s, some WErr.missingUnit)
    | some unitId =>
      if s.dishIngredients.any
          (fun r => decide (r.dish = dishId) && decide (r.ingredient = ingId))
      then (s, some WErr.duplicateDishIngredient)
      else ({ s with dishIngredients :=
                s.dishIngredients ++ [⟨dishId, ingId, qty, unitId⟩] }, none)

/-- Unit half of one loop iteration of `DishSerializer.create`: when the
`unit_name` key is present its resolution wins over `unit_id`. -/
def createOneLineUnit (s : Store) (dishId : Nat) (line : IngLine)
    (ingOpt : Option Nat) : Store × Option WErr :=
  match line.unitName with
  | some raw =>
    match getOrCreateUnit s raw with
    | .error e => (s, some e)
    | .ok (s1, uId) => createLineInsert s1 dishId line.quantity ingOpt (some uId)
  | none => createLineInsert s dishId line.quantity ingOpt line.unitId

/-- One loop iteration of `DishSerializer.create`: resolve the
ingredient (a present `ingredient_name` key wins over `ingredient_id`),
resolve the unit, then insert the join row.  There is no enclosing
transaction, so on failure the store mutated so far is kept. -/
def createOneLine (s : Store) (dishId : Nat) (line : IngLine) : Store × Option WErr :=
  match line.ingredientName with
  | some raw =>
    match getOrCreateIngredient s raw with
    | .error e => (s, some e)
    | .ok (s1, ingId) => createOneLineUnit s1 dishId line (some ingId)
  | none => createOneLineUnit s dishId line line.ingredientId

/-- The ingredient-line loop of `DishSerializer.create`/`update`. -/
def createLines (s : Store) (dishId : Nat) : List IngLine → Store × Option WErr
  | [] => (s, none)
  | l :: rest =>
    let res := createOneLine s dishId l
    match res.2 with
    | some e => (res.1, some e)
    | none => createLines res.1 dishId rest

/-- `CookingStep.objects.create`: the database enforces the
`(dish, step_number)` uniqueness. -/
def createOneStep (s : Store) (dishId : Nat) (st : StepLine) : Store × Option WErr :=
  if s.steps.any (fun r => decide (r.dish = dishId) && decide (r.stepNumber = st.stepNumber))
  then (s, some WErr.duplicateStepNumber)
  else ({ s with steps := s.steps ++ [⟨dishId, st.stepNumber, st.instruction⟩] }, none)

/-- The step loop of `DishSerializer.create`/`update`. -/
def createSteps (s : Store) (dishId : Nat) : List StepLine → Store × Option WErr
  | [] => (s, none)
  | st :: rest =>
    let res := createOneStep s dishId st
    match res.2 with
    | some e => (res.1, some e)
    | none => createSteps res.1 dishId rest

/-- `Dish.objects.create`: the inserted dish row. -/
def dishInsertStore (s : Store) (p : DishPayload) : Store :=
  { s with dishes := s.dishes ++ [⟨s.nextDishId, p.name, p.description, p.prepTime, p.cookTime⟩],
           nextDishId := s.nextDishId + 1 }

/-- `DishSerializer.create`: insert the dish row (the database rejects a
duplicate dish name), then run the ingredient-line loop and the step
loop.  The source wraps none of this in a transaction, so a failure
partway leaves every earlier insert in the store. -/
def dishSerializerCreate (s : Store) (p : DishPayload) : Store × Option WErr :=
  if s.dishes.any (fun d => decide (d.name = p.name)) then (s, some WErr.duplicateDishName)
  else
    let res := createLines (dishInsertStore s p) s.nextDishId p.lines
    match res.2 with
    | some e => (res.1, some e)
    | none => createSteps res.1 s.nextDishId p.stepLines

/-- A dish-update payload: every `none` models a key omitted from the
request. -/
structure DishUpdatePayload where
  name : Option (List Nat)
  description : Option (List Nat)
  prepTime : Option Nat
  cookTime : Option Nat
  lines : Option (List IngLine)
  stepLines : Option (List StepLine)
deriving DecidableEq

/-- `setattr` application of the supplied scalar fields of an update
payload onto a dish row. -/
def applyDishFields (d : DishRow) (p : DishUpdatePayload) : DishRow :=
  { d with name := p.name.getD d.name,
           description := p.description.getD d.description,
           prepTime := p.prepTime.getD d.prepTime,
           cookTime := p.cookTime.getD d.cookTime }

/-- The `instance.dishingredient_set.all().delete()` of
`DishSerializer.update`. -/
def clearDishLines (s : Store) (dishId : Nat) : Store :=
  { s with dishIngredients := s.dishIngredients.filter (fun r => decide (r.dish ≠ dishId)) }

/-- The `instance.steps.all().delete()` of `DishSerializer.update`. -/
def clearDishSteps (s : Store) (dishId : Nat) : Store :=
  { s with steps := s.steps.filter (fun r => decide (r.dish ≠ dishId)) }

/-- The ingredient block of `DishSerializer.update`: inside
`transaction.atomic()`, delete the dish's join rows and recreate them
from the supplied list; on failure the block is rolled back to the store
it started from. -/
def updateLinesBlock (s : Store) (dishId : Nat) (lines : List IngLine) :
    Store × Option WErr :=
  let res := createLines (clearDishLines s dishId) dishId lines
  match res.2 with
  | none => (res.1, none)
  | some e => (s, some e)

/-- The step block of `DishSerializer.update`: inside
`transaction.atomic()`, delete the dish's steps and recreate them from
the supplied list; rolled back on failure. -/
def updateStepsBlock (s : Store) (dishId : Nat) (stepLines : List StepLine) :
    Store × Option WErr :=
  let res := createSteps (clearDishSteps s dishId) dishId stepLines
  match res.2 with
  | none => (res.1, none)
  | some e => (s, some e)

/-- The `UPDATE ... WHERE id = dishId` effect of `instance.save()`. -/
def replaceDishRow (s : Store) (dishId : Nat) (updated : DishRow) : Store :=
  { s with dishes := s.dishes.map (fun d => if d.id = dishId then updated else d) }

/-- `DishSerializer.update`: update the dish row's own fields
(committed on its own, the database rejecting a duplicate name), then
replace the join rows when a list is supplied, then replace the steps
when a list is supplied; an omitted list leaves its rows untouched. -/
def dishSerializerUpdate (s : Store) (dishId : Nat) (p : DishUpdatePayload) :
    Store × Option WErr :=
  match s.dishes.find? (fun d => decide (d.id = dishId)) with
  | none => (s, some WErr.dishNotFound)
  | some old =>
    let updated := applyDishFields old p
    if s.dishes.any (fun d => decide (d.id ≠ dishId) && decide (d.name = updated.name))
    then (s, some WErr.duplicateDishName)
    else
      let s0 := replaceDishRow s dishId updated
      match p.lines with
      | some lns =>
        let res := updateLinesBlock s0 dishId lns
        match res.2 with
        | none =>
          match p.stepLines with
          | some sts => updateStepsBlock res.1 dishId sts
          | none => (res.1, none)
        | some e => (res.1, some e)
      | none =>
        match p.stepLines with
        | some sts => updateStepsBlock s0 dishId sts
        | none => (s0, none)

/-- Field tags of a Django `ValidationError` dictionary on `Dish`. -/
inductive FieldTag where
  | prepTime
  | cookTime
deriving DecidableEq

/-- Message of `MinValueValidator(1)` on `Dish.prep_time`. -/
def msgPrepMin : String := "Prep time must be at least 1 minute."

/-- Message of `MaxValueValidator(1440)` on `Dish.prep_time`. -/
def msgPrepMax : String := "Prep time cannot exceed 24 hours."

/-- Message of `MaxValueValidator(1440)` on `Dish.cook_time`. -/
def msgCookMax : String := "Cook time cannot exceed 24 hours."

/-- Django's null-field message. -/
def msgFieldNull : String := "This field cannot be null."

/-- Required message of `Dish.clean` for `prep_time`. -/
def msgPrepRequired : String := "Prep time is required."

/-- Required message of `Dish.clean` for `cook_time`. -/
def msgCookRequired : String := "Cook time is required."

/-- Total-time message of `Dish.clean`. -/
def msgTotal : String := "Total cooking time exceeds 4 hours."

/-- The field-validator stage of `Dish.full_clean` for the two time
fields (`prep_time`: min 1, max 1440; `cook_time`: `PositiveIntegerField`
with max 1440). -/
def dishFieldErrors (prep cook : Option Nat) : List (FieldTag × String) :=
  (match prep with
   | none => [(FieldTag.prepTime, msgFieldNull)]
   | some p =>
     (if p < 1 then [(FieldTag.prepTime, msgPrepMin)] else []) ++
     (if p > 1440 then [(FieldTag.prepTime, msgPrepMax)] else [])) ++
  (match cook with
   | none => [(FieldTag.cookTime, msgFieldNull)]
   | some c => if c > 1440 then [(FieldTag.cookTime, msgCookMax)] else [])

/-- `Dish.clean`: collect every violation into one error dictionary
instead of failing fast; the total-time violation is stored under the
`cook_time` key. -/
def dishCleanErrors (prep cook : Option Nat) : List (FieldTag × String) :=
  (match prep with
   | none => [(FieldTag.prepTime, msgPrepRequired)]
   | some _ => []) ++
  (match cook with
   | none => [(FieldTag.cookTime, msgCookRequired)]
   | some _ => []) ++
  (match prep, cook with
   | some p, some c => if p + c > 240 then [(FieldTag.cookTime, msgTotal)] else []
   | _, _ => [])

/-- `Dish.full_clean` on the two time fields: the collected field-stage
errors followed by the collected `clean()` errors. -/
def dishFullCleanErrors (prep cook : Option Nat) : List (FieldTag × String) :=
  dishFieldErrors prep cook ++ dishCleanErrors prep cook

/-- The `MinValueValidator(0, message="Quantity must be greater than 0")`
attached to `DishIngredient.quantity`: it raises exactly when the value
is below its limit of 0.  The quantity is an integer count of
hundredths. -/
def quantityValidatorErrors (q : Int) : List String :=
  if q < 0 then [("Quantity must be greater than 0")] else []

/-- Error results of `GrocerySerializer.validate_name`. -/
inductive GroceryErr where
  | emptyName
  | duplicateName (name : List Nat)
deriving DecidableEq

/-- `GrocerySerializer.validate_name`: strip the value, reject an empty
name, reject a case-insensitive duplicate of any other grocery item with
a message carrying the attempted name, and return the stripped value
title-cased. -/
def groceryValidateName (s : Store) (selfPk : Option Nat) (value : List Nat) :
    Except GroceryErr (List Nat) :=
  let n := pyStrip value
  if n = [] then .error GroceryErr.emptyName
  else if s.groceries.any (fun g => iexact g.name n && decide (some g.id ≠ selfPk))
  then .error (GroceryErr.duplicateName n)
  else .ok (pyTitle n)

/-- `GrocerySerializer.create`: validated name plus flags inserted as a
new row. -/
def grocerySerializerCreate (s : Store) (value : List Nat) (inCart isOptional : Bool) :
    Except GroceryErr (Store × Nat) :=
  match groceryValidateName s none value with
  | .error e => .error e
  | .ok n =>
    let i := s.nextGroceryId
    .ok ({ s with groceries := s.groceries ++ [⟨i, n, inCart, isOptional⟩],
                  nextGroceryId := i + 1 }, i)

/-- Deleting an `Ingredient` cascades to its `DishIngredient` rows. -/
def ingredientDelete (s : Store) (pk : Nat) : Store :=
  { s with ingredients := s.ingredients.filter (fun r => decide (r.id ≠ pk)),
           dishIngredients := s.dishIngredients.filter (fun r => decide (r.ingredient ≠ pk)) }

/-- Deleting a `Unit` is protected (`on_delete=PROTECT`): it fails while
any `DishIngredient` row references it. -/
def unitDelete (s : Store) (pk : Nat) : Except WErr Store :=
  if s.dishIngredients.any (fun r => decide (r.unit = pk))
  then .error WErr.protectedUnit
  else .ok { s with units := s.units.filter (fun u => decide (u.id ≠ pk)) }

/-- Deleting a `Dish` cascades to its `DishIngredient` and `CookingStep`
rows. -/
def dishDelete (s : Store) (pk : Nat) : Store :=
  { s with dishes := s.dishes.filter (fun d => decide (d.id ≠ pk)),
           dishIngredients := s.dishIngredients.filter (fun r => decide (r.dish ≠ pk)),
           steps := s.steps.filter (fun r => decide (r.dish ≠ pk)) }

/-- Deleting a `GroceryItem`. -/
def groceryDelete (s : Store) (pk : Nat) : Store :=
  { s with groceries := s.groceries.filter (fun g => decide (g.id ≠ pk)) }

/-- Every persisted `Ingredient` name equals its own normalization. -/
def IngNamesNormalized (s : Store) : Prop :=
  ∀ r ∈ s.ingredients, normalizeNameS r.name = r.name

/-- Every persisted `Unit` name and abbreviation equals its own
normalization. -/
def UnitNamesNormalized (s : Store) : Prop :=
  ∀ u ∈ s.units, normalizeNameS u.name = u.name ∧ normalizeNameS u.abbr = u.abbr

/-- The stored-names-are-normalized invariant. -/
def namesNormalized (s : Store) : Prop :=
  IngNamesNormalized s ∧ UnitNamesNormalized s

/-- The stores reachable from the empty store through the embedded
persistence operations of the application. -/
inductive Reach : Store → Prop where
  | empty : Reach emptyStore
  | ingredientCreate {s s' : Store} {raw : List Nat} {i : Nat} :
      Reach s → ingredientSaveNew s raw = .ok (s', i) → Reach s'
  | ingredientUpdate {s s' : Store} {pk : Nat} {raw : List Nat} :
      Reach s → ingredientSaveUpdate s pk raw = .ok s' → Reach s'
  | ingredientApiCreate {s s' : Store} {raw : List Nat} {i : Nat} :
      Reach s → ingredientSerializerCreate s raw = .ok (s', i) → Reach s'
  | ingredientApiUpdate {s s' : Store} {pk : Nat} {raw : List Nat} :
      Reach s → ingredientSerializerUpdate s pk raw = .ok s' → Reach s'
  | unitCreate {s s' : Store} {rawName rawAbbr : List Nat} {i : Nat} :
      Reach s → unitSaveNew s rawName rawAbbr = .ok (s', i) → Reach s'
  | unitUpdate {s s' : Store} {pk : Nat} {rawName rawAbbr : List Nat} :
      Reach s → unitSaveUpdate s pk rawName rawAbbr = .ok s' → Reach s'
  | unitApiCreate {s s' : Store} {rawName rawAbbr : List Nat} {i : Nat} :
      Reach s → unitSerializerCreate s rawName rawAbbr = .ok (s', i) → Reach s'
  | unitApiUpdate {s s' : Store} {pk : Nat} {rawName rawAbbr : List Nat} :
      Reach s → unitSerializerUpdate s pk rawName rawAbbr = .ok s' → Reach s'
  | dishCreate {s : Store} (p : DishPayload) :
      Reach s → Reach (dishSerializerCreate s p).1
  | dishUpdate {s : Store} (dishId : Nat) (p : DishUpdatePayload) :
      Reach s → Reach (dishSerializerUpdate s dishId p).1
  | groceryCreate {s s' : Store} {v : List Nat} {b1 b2 : Bool} {i : Nat} :
      Reach s → grocerySerializerCreate s v b1 b2 = .ok (s', i) → Reach s'
  | ingredientDrop {s : Store} (pk : Nat) :
      Reach s → Reach (ingredientDelete s pk)
  | unitDrop {s s' : Store} {pk : Nat} :
      Reach s → unitDelete s pk = .ok s' → Reach s'
  | dishDrop {s : Store} (pk : Nat) :
      Reach s → Reach (dishDelete s pk)
  | groceryDrop {s : Store} (pk : Nat) :
      Reach s → Reach (groceryDelete s pk)

/-- Store after creating the ingredient `Tomatoes` (stored normalized). -/
def tomatoesStore : Store :=
  { emptyStore with ingredients := [⟨0, codes ("tomatoes")⟩], nextIngredientId := 1 }

/-- Store after additionally creating the ingredient `tomato`. -/
def tomatoStore2 : Store :=
  { emptyStore with ingredients := [⟨0, codes ("tomatoes")⟩, ⟨1, codes ("tomato")⟩],
                    nextIngredientId := 2 }

/-- Store after creating the unit `Tablespoon` with abbreviation `tbsp`. -/
def tbspStore : Store :=
  { emptyStore with units := [⟨1, codes ("tablespoon"), codes ("tbsp")⟩], nextUnitId := 2 }

/-- A store holding one ingredient (`flour`, id 1) and one unit
(`cup`/`c`, id 1). -/
def flourCupStore : Store :=
  { emptyStore with ingredients := [⟨1, codes ("flour")⟩],
                    units := [⟨1, codes ("cup"), codes ("c")⟩],
                    nextIngredientId := 2, nextUnitId := 2, nextDishId := 5 }

/-- A dish payload whose two ingredient lines reference the same
ingredient id, so the second join-row insert violates the
`(dish, ingredient)` uniqueness. -/
def dupLinePayload : DishPayload :=
  { name := codes ("bread"), description := [], prepTime := 10, cookTime := 20,
    lines := [⟨some 1, none, some 1, none, 200⟩, ⟨some 1, none, some 1, none, 300⟩],
    stepLines := [] }

/-- A dish payload with a single ingredient line whose quantity is 0. -/
def qtyZeroPayload : DishPayload :=
  { name := codes ("pasta"), description := [], prepTime := 10, cookTime := 10,
    lines := [⟨some 1, none, some 1, none, 0⟩],
    stepLines := [] }

/-- A dish payload whose first line references ingredient id 1 and whose
second line supplies the new ingredient name `Sugar`. -/
def mixedLinePayload : DishPayload :=
  { name := codes ("cake"), description := [], prepTime := 15, cookTime := 30,
    lines := [⟨some 1, none, some 1, none, 200⟩, ⟨none, some (codes ("Sugar")), some 1, none, 50⟩],
    stepLines := [] }

/-- A store with one dish (id 1) owning one join row and one step, plus
another dish (id 2) owning one join row. -/
def twoDishStore : Store :=
  { emptyStore with ingredients := [⟨1, codes ("flour")⟩],
                    units := [⟨1, codes ("cup"), codes ("c")⟩],
                    dishes := [⟨1, codes ("bread"), [], 10, 20⟩, ⟨2, codes ("soup"), [], 5, 30⟩],
                    dishIngredients := [⟨1, 1, 200, 1⟩, ⟨2, 1, 100, 1⟩],
                    steps := [⟨1, 1, codes ("mix")⟩],
                    nextIngredientId := 2, nextUnitId := 2, nextDishId := 3 }

/-- An update payload that changes only `prep_time` and omits both
nested lists. -/
def prepOnlyUpdate : DishUpdatePayload :=
  { name := none, description := none, prepTime := some 25, cookTime := none,
    lines := none, stepLines := none }

/-- A store holding one grocery item named `Milk`. -/
def milkStore : Store :=
  { emptyStore with groceries := [⟨1, codes ("Milk"), false, false⟩], nextGroceryId := 2 }

theorem pyLowerChar_idem (c : Nat) : pyLowerChar (pyLowerChar c) = pyLowerChar c := by
  unfold pyLowerChar
  split
  next h => rw [if_neg (by omega)]
  next h => rfl

theorem isPySpace_pyLowerChar (c : Nat) : isPySpace (pyLowerChar c) = isPySpace c := by
  unfold pyLowerChar isPySpace
  split
  next h => rw [decide_eq_decide]; constructor <;> intro <;> omega
  next h => rfl

theorem dropWhile_idem (p : α → Bool) (l : List α) :
    List.dropWhile p (List.dropWhile p l) = List.dropWhile p l := by
  induction l with
  | nil => simp
  | cons a l ih =>
    by_cases h : p a
    · simp [List.dropWhile, h, ih]
    · simp [List.dropWhile, h]

theorem dropWhile_eq_self_of_prefix (p : α → Bool) {l m : List α}
    (hpre : m <+: l) (h : List.dropWhile p l = l) : List.dropWhile p m = m := by
  cases m with
  | nil => rfl
  | cons a t =>
    obtain ⟨r, hr⟩ := hpre
    cases hpa : p a with
    | false => simp [List.dropWhile_cons, hpa]
    | true =>
      exfalso
      subst hr
      rw [List.cons_append, List.dropWhile_cons, hpa] at h
      simp only [if_pos] at h
      have hlen := (List.dropWhile_suffix (l := t ++ r) p).length_le
      rw [h] at hlen
      simp at hlen

theorem reverse_dropWhile_reverse_prefix (p : α → Bool) (l : List α) :
    (l.reverse.dropWhile p).reverse <+: l := by
  have hsuf := List.dropWhile_suffix (l := l.reverse) p
  have h2 := List.reverse_prefix.mpr hsuf
  simpa using h2

theorem pyStrip_idem (s : List Nat) : pyStrip (pyStrip s) = pyStrip s := by
  unfold pyStrip
  have hdl : List.dropWhile isPySpace (List.dropWhile isPySpace s)
      = List.dropWhile isPySpace s := dropWhile_idem _ _
  have hpre := reverse_dropWhile_reverse_prefix isPySpace (List.dropWhile isPySpace s)
  have h1 := dropWhile_eq_self_of_prefix isPySpace hpre hdl
  rw [h1, List.reverse_reverse, dropWhile_idem]

theorem pyStrip_pyLower (s : List Nat) : pyStrip (pyLower s) = pyLower (pyStrip s) := by
  unfold pyStrip pyLower
  have hc : (isPySpace ∘ pyLowerChar) = isPySpace := by
    funext c; exact isPySpace_pyLowerChar c
  rw [List.dropWhile_map, hc, ← List.map_reverse, List.dropWhile_map, hc, ← List.map_reverse]

theorem pyLower_idem (s : List Nat) : pyLower (pyLower s) = pyLower s := by
  unfold pyLower
  rw [List.map_map]
  apply List.map_congr_left
  intro c _
  exact pyLowerChar_idem c

theorem normalizeNameS_idem (s : List Nat) :
    normalizeNameS (normalizeNameS s) = normalizeNameS s := by
  unfold normalizeNameS
  rw [pyStrip_pyLower, pyLower_idem, pyStrip_idem]

theorem normalizeNameM_eq (name : List Nat) (i u a : Bool) :
    normalizeNameM name i u a = normalizeNameS name := rfl

theorem head_dropWhile_false (p : α → Bool) (l : List α) (c : α)
    (h : (List.dropWhile p l).head? = some c) : p c = false := by
  induction l with
  | nil => simp at h
  | cons a t ih =>
    rw [List.dropWhile_cons] at h
    by_cases hpa : p a
    · rw [if_pos hpa] at h; exact ih h
    · rw [if_neg hpa] at h
      simp at h
      rw [← h]
      simpa using hpa

theorem head_of_prefix {l m : List α} (hpre : m <+: l) (c : α)
    (h : m.head? = some c) : l.head? = some c := by
  obtain ⟨r, hr⟩ := hpre
  cases m with
  | nil => simp at h
  | cons a t =>
    simp at h
    subst hr
    simp [h]

theorem ingredientSaveNew_ok {s : Store} {raw : List Nat} {s' : Store} {i : Nat}
    (h : ingredientSaveNew s raw = .ok (s', i)) :
    s' = { s with ingredients := s.ingredients ++ [⟨s.nextIngredientId, normalizeNameS raw⟩], nextIngredientId := s.nextIngredientId + 1 } ∧ i = s.nextIngredientId := by
  simp only [ingredientSaveNew] at h
  split at h
  · exact absurd h (by simp)
  · simp only [Except.ok.injEq, Prod.mk.injEq] at h
    exact ⟨h.1.symm, h.2.symm⟩

theorem ingredientSaveUpdate_ok {s : Store} {pk : Nat} {raw : List Nat} {s' : Store}
    (h : ingredientSaveUpdate s pk raw = .ok s') :
    s' = { s with ingredients := s.ingredients.map (fun r => if r.id = pk then { r with name := normalizeNameS raw } else r) } := by
  simp only [ingredientSaveUpdate] at h
  split at h
  · exact absurd h (by simp)
  · simp only [Except.ok.injEq] at h
    exact h.symm

theorem unitSaveNew_ok {s : Store} {rawName rawAbbr : List Nat} {s' : Store} {i : Nat}
    (h : unitSaveNew s rawName rawAbbr = .ok (s', i)) :
    s' = { s with units := s.units ++ [⟨s.nextUnitId, normalizeNameS rawName, if rawAbbr ≠ [] then normalizeNameS rawAbbr else []⟩], nextUnitId := s.nextUnitId + 1 } ∧ i = s.nextUnitId := by
  simp only [unitSaveNew] at h
  split at h
  · exact absurd h (by simp)
  · simp only [Except.ok.injEq, Prod.mk.injEq] at h
    exact ⟨h.1.symm, h.2.symm⟩

theorem unitSaveUpdate_ok {s : Store} {pk : Nat} {rawName rawAbbr : List Nat} {s' : Store}
    (h : unitSaveUpdate s pk rawName rawAbbr = .ok s') :
    s' = { s with units := s.units.map (fun u => if u.id = pk then { u with name := normalizeNameS rawName, abbr := if rawAbbr ≠ [] then normalizeNameS rawAbbr else [] } else u) } := by
  simp only [unitSaveUpdate] at h
  split at h
  · exact absurd h (by simp)
  · simp only [Except.ok.injEq] at h
    exact h.symm

theorem getOrCreateIngredient_ok {s : Store} {raw : List Nat} {s' : Store} {i : Nat}
    (h : getOrCreateIngredient s raw = .ok (s', i)) :
    s' = s ∨ ingredientSaveNew s (pyStrip raw) = .ok (s', i) := by
  simp only [getOrCreateIngredient] at h
  split at h
  · left
    simp only [Except.ok.injEq, Prod.mk.injEq] at h
    exact h.1.symm
  · split at h
    · exact absurd h (by simp)
    · exact .inr h

theorem getOrCreateUnit_ok {s : Store} {raw : List Nat} {s' : Store} {i : Nat}
    (h : getOrCreateUnit s raw = .ok (s', i)) :
    s' = s ∨ unitSaveNew s (pyStrip raw) [] = .ok (s', i) := by
  simp only [getOrCreateUnit] at h
  split at h
  · left
    simp only [Except.ok.injEq, Prod.mk.injEq] at h
    exact h.1.symm
  · split at h
    · exact absurd h (by simp)
    · exact .inr h

theorem getOrCreateIngredient_frame {s : Store} {raw : List Nat} {s' : Store} {i : Nat}
    (h : getOrCreateIngredient s raw = .ok (s', i)) :
    s'.dishes = s.dishes ∧ s'.steps = s.steps ∧
    s'.dishIngredients = s.dishIngredients ∧ s'.units = s.units ∧
    s'.nextDishId = s.nextDishId := by
  rcases getOrCreateIngredient_ok h with hs | hs
  · subst hs; exact ⟨rfl, rfl, rfl, rfl, rfl⟩
  · obtain ⟨rfl, -⟩ := ingredientSaveNew_ok hs
    exact ⟨rfl, rfl, rfl, rfl, rfl⟩

theorem getOrCreateUnit_frame {s : Store} {raw : List Nat} {s' : Store} {i : Nat}
    (h : getOrCreateUnit s raw = .ok (s', i)) :
    s'.dishes = s.dishes ∧ s'.steps = s.steps ∧
    s'.dishIngredients = s.dishIngredients ∧ s'.ingredients = s.ingredients ∧
    s'.nextDishId = s.nextDishId := by
  rcases getOrCreateUnit_ok h with hs | hs
  · subst hs; exact ⟨rfl, rfl, rfl, rfl, rfl⟩
  · obtain ⟨rfl, -⟩ := unitSaveNew_ok hs
    exact ⟨rfl, rfl, rfl, rfl, rfl⟩

theorem normalizeNameS_nil : normalizeNameS [] = [] := rfl

theorem abbrValue_fix (rawAbbr : List Nat) :
    normalizeNameS (if rawAbbr ≠ [] then normalizeNameS rawAbbr else []) =
      (if rawAbbr ≠ [] then normalizeNameS rawAbbr else []) := by
  by_cases h : rawAbbr = []
  · rw [if_neg (by simp [h])]
    exact normalizeNameS_nil
  · rw [if_pos h]
    exact normalizeNameS_idem _

theorem ingredientSaveNew_pres {s : Store} {raw : List Nat} {s' : Store} {i : Nat}
    (hn : namesNormalized s) (h : ingredientSaveNew s raw = .ok (s', i)) :
    namesNormalized s' := by
  obtain ⟨rfl, -⟩ := ingredientSaveNew_ok h
  refine ⟨?_, hn.2⟩
  intro r hr
  simp only [List.mem_append, List.mem_singleton] at hr
  rcases hr with hr | hr
  · exact hn.1 r hr
  · subst hr
    exact normalizeNameS_idem raw

theorem ingredientSaveUpdate_pres {s : Store} {pk : Nat} {raw : List Nat} {s' : Store}
    (hn : namesNormalized s) (h : ingredientSaveUpdate s pk raw = .ok s') :
    namesNormalized s' := by
  have hs := ingredientSaveUpdate_ok h
  subst hs
  refine ⟨?_, hn.2⟩
  intro r hr
  simp only [List.mem_map] at hr
  obtain ⟨r0, hr0, hreq⟩ := hr
  subst hreq
  by_cases hid : r0.id = pk
  · rw [if_pos hid]
    exact normalizeNameS_idem raw
  · rw [if_neg hid]
    exact hn.1 r0 hr0

theorem unitSaveNew_pres {s : Store} {rawName rawAbbr : List Nat} {s' : Store} {i : Nat}
    (hn : namesNormalized s) (h : unitSaveNew s rawName rawAbbr = .ok (s', i)) :
    namesNormalized s' := by
  obtain ⟨rfl, -⟩ := unitSaveNew_ok h
  refine ⟨hn.1, ?_⟩
  intro u hu
  simp only [List.mem_append, List.mem_singleton] at hu
  rcases hu with hu | hu
  · exact hn.2 u hu
  · subst hu
    exact ⟨normalizeNameS_idem rawName, abbrValue_fix rawAbbr⟩

theorem unitSaveUpdate_pres {s : Store} {pk : Nat} {rawName rawAbbr : List Nat} {s' : Store}
    (hn : namesNormalized s) (h : unitSaveUpdate s pk rawName rawAbbr = .ok s') :
    namesNormalized s' := by
  have hs := unitSaveUpdate_ok h
  subst hs
  refine ⟨hn.1, ?_⟩
  intro u hu
  simp only [List.mem_map] at hu
  obtain ⟨u0, hu0, hueq⟩ := hu
  subst hueq
  by_cases hid : u0.id = pk
  · rw [if_pos hid]
    exact ⟨normalizeNameS_idem rawName, abbrValue_fix rawAbbr⟩
  · rw [if_neg hid]
    exact hn.2 u0 hu0

theorem ingredientSerializerCreate_ok {s : Store} {raw : List Nat} {s' : Store} {i : Nat}
    (h : ingredientSerializerCreate s raw = .ok (s', i)) :
    ingredientSaveNew s (normalizeNameS raw) = .ok (s', i) := by
  simp only [ingredientSerializerCreate] at h
  split at h
  · exact absurd h (by simp)
  · split at h
    · exact absurd h (by simp)
    · exact h

theorem ingredientSerializerUpdate_ok {s : Store} {pk : Nat} {raw : List Nat} {s' : Store}
    (h : ingredientSerializerUpdate s pk raw = .ok s') :
    ingredientSaveUpdate s pk (normalizeNameS raw) = .ok s' := by
  simp only [ingredientSerializerUpdate] at h
  split at h
  · exact absurd h (by simp)
  · exact h

theorem unitSerializerCreate_ok {s : Store} {rawName rawAbbr : List Nat} {s' : Store} {i : Nat}
    (h : unitSerializerCreate s rawName rawAbbr = .ok (s', i)) :
    ∃ nm ab, unitSaveNew s nm ab = .ok (s', i) := by
  simp only [unitSerializerCreate] at h
  split at h
  · exact absurd h (by simp)
  · split at h
    · exact absurd h (by simp)
    · exact ⟨_, _, h⟩

theorem unitSerializerUpdate_ok {s : Store} {pk : Nat} {rawName rawAbbr : List Nat} {s' : Store}
    (h : unitSerializerUpdate s pk rawName rawAbbr = .ok s') :
    ∃ nm ab, unitSaveUpdate s pk nm ab = .ok s' := by
  simp only [unitSerializerUpdate] at h
  split at h
  · exact absurd h (by simp)
  · split at h
    · exact absurd h (by simp)
    · exact ⟨_, _, h⟩

theorem getOrCreateIngredient_pres {s : Store} {raw : List Nat} {s' : Store} {i : Nat}
    (hn : namesNormalized s) (h : getOrCreateIngredient s raw = .ok (s', i)) :
    namesNormalized s' := by
  rcases getOrCreateIngredient_ok h with rfl | hsn
  · exact hn
  · exact ingredientSaveNew_pres hn hsn

theorem getOrCreateUnit_pres {s : Store} {raw : List Nat} {s' : Store} {i : Nat}
    (hn : namesNormalized s) (h : getOrCreateUnit s raw = .ok (s', i)) :
    namesNormalized s' := by
  rcases getOrCreateUnit_ok h with rfl | hsn
  · exact hn
  · exact unitSaveNew_pres hn hsn

theorem grocerySerializerCreate_ok {s : Store} {v : List Nat} {b1 b2 : Bool}
    {s' : Store} {i : Nat} (h : grocerySerializerCreate s v b1 b2 = .ok (s', i)) :
    s'.ingredients = s.ingredients ∧ s'.units = s.units := by
  simp only [grocerySerializerCreate] at h
  split at h
  · exact absurd h (by simp)
  · simp only [Except.ok.injEq, Prod.mk.injEq] at h
    rw [← h.1]
    exact ⟨rfl, rfl⟩

theorem unitDelete_ok {s : Store} {pk : Nat} {s' : Store}
    (h : unitDelete s pk = .ok s') :
    s'.ingredients = s.ingredients ∧
    s'.units = s.units.filter (fun u => decide (u.id ≠ pk)) := by
  simp only [unitDelete] at h
  split at h
  · exact absurd h (by simp)
  · simp only [Except.ok.injEq] at h
    rw [← h]
    exact ⟨rfl, rfl⟩

theorem createLineInsert_shape (s : Store) (d : Nat) (q : Int) (io uo : Option Nat) :
    ∃ rows, (createLineInsert s d q io uo).1.dishes = s.dishes ∧
      (createLineInsert s d q io uo).1.steps = s.steps ∧
      (createLineInsert s d q io uo).1.ingredients = s.ingredients ∧
      (createLineInsert s d q io uo).1.units = s.units ∧
      (createLineInsert s d q io uo).1.nextDishId = s.nextDishId ∧
      (createLineInsert s d q io uo).1.dishIngredients = s.dishIngredients ++ rows ∧
      (∀ r ∈ rows, r.dish = d ∧ r.quantity = q) ∧
      ((createLineInsert s d q io uo).2 = none →
        rows.map (fun r => r.quantity) = [q]) := by
  rcases io with _ | ingId
  · exact ⟨[], by simp [createLineInsert]⟩
  rcases uo with _ | unitId
  · exact ⟨[], by simp [createLineInsert]⟩
  by_cases hdup : s.dishIngredients.any
      (fun r => decide (r.dish = d) && decide (r.ingredient = ingId)) = true
  · refine ⟨[], ?_⟩
    simp [createLineInsert, hdup]
  · refine ⟨[⟨d, ingId, q, unitId⟩], ?_⟩
    simp [createLineInsert, hdup]

theorem createOneStep_shape (s : Store) (d : Nat) (st : StepLine) :
    ∃ rows, (createOneStep s d st).1.dishes = s.dishes ∧
      (createOneStep s d st).1.dishIngredients = s.dishIngredients ∧
      (createOneStep s d st).1.ingredients = s.ingredients ∧
      (createOneStep s d st).1.units = s.units ∧
      (createOneStep s d st).1.nextDishId = s.nextDishId ∧
      (createOneStep s d st).1.steps = s.steps ++ rows ∧
      (∀ r ∈ rows, r.dish = d) ∧
      ((createOneStep s d st).2 = none →
        rows.map (fun r => r.stepNumber) = [st.stepNumber]) := by
  by_cases hdup : s.steps.any
      (fun r => decide (r.dish = d) && decide (r.stepNumber = st.stepNumber)) = true
  · refine ⟨[], ?_⟩
    simp [createOneStep, hdup]
  · refine ⟨[⟨d, st.stepNumber, st.instruction⟩], ?_⟩
    simp [createOneStep, hdup]

theorem createOneLineUnit_shape (s : Store) (d : Nat) (l : IngLine) (io : Option Nat) :
    ∃ rows, (createOneLineUnit s d l io).1.dishes = s.dishes ∧
      (createOneLineUnit s d l io).1.steps = s.steps ∧
      (createOneLineUnit s d l io).1.nextDishId = s.nextDishId ∧
      (createOneLineUnit s d l io).1.dishIngredients = s.dishIngredients ++ rows ∧
      (∀ r ∈ rows, r.dish = d ∧ r.quantity = l.quantity) ∧
      ((createOneLineUnit s d l io).2 = none →
        rows.map (fun r => r.quantity) = [l.quantity]) ∧
      (namesNormalized s → namesNormalized (createOneLineUnit s d l io).1) := by
  rcases hun : l.unitName with _ | raw
  · simp only [createOneLineUnit, hun]
    obtain ⟨rows, h1, h2, h3, h4, h5, h6, h7, h8⟩ :=
      createLineInsert_shape s d l.quantity io l.unitId
    refine ⟨rows, h1, h2, h5, h6, h7, h8, ?_⟩
    intro hnorm
    constructor
    · intro r hr
      rw [h3] at hr
      exact hnorm.1 r hr
    · intro u hu
      rw [h4] at hu
      exact hnorm.2 u hu
  · simp only [createOneLineUnit, hun]
    cases hg : getOrCreateUnit s raw with
    | error e =>
      refine ⟨[], by simp, by simp, by simp, by simp, by simp, by simp, fun hnorm => hnorm⟩
    | ok v =>
      obtain ⟨s1, uId⟩ := v
      simp only []
      obtain ⟨hfd, hfs, hfdi, hfi, hfn⟩ := getOrCreateUnit_frame hg
      obtain ⟨rows, h1, h2, h3, h4, h5, h6, h7, h8⟩ :=
        createLineInsert_shape s1 d l.quantity io (some uId)
      refine ⟨rows, ?_, ?_, ?_, ?_, h7, h8, ?_⟩
      · rw [h1, hfd]
      · rw [h2, hfs]
      · rw [h5, hfn]
      · rw [h6, hfdi]
      · intro hnorm
        have hnorm1 := getOrCreateUnit_pres hnorm hg
        constructor
        · intro r hr
          rw [h3] at hr
          exact hnorm1.1 r hr
        · intro u hu
          rw [h4] at hu
          exact hnorm1.2 u hu

theorem createOneLine_shape (s : Store) (d : Nat) (l : IngLine) :
    ∃ rows, (createOneLine s d l).1.dishes = s.dishes ∧
      (createOneLine s d l).1.steps = s.steps ∧
      (createOneLine s d l).1.nextDishId = s.nextDishId ∧
      (createOneLine s d l).1.dishIngredients = s.dishIngredients ++ rows ∧
      (∀ r ∈ rows, r.dish = d ∧ r.quantity = l.quantity) ∧
      ((createOneLine s d l).2 = none →
        rows.map (fun r => r.quantity) = [l.quantity]) ∧
      (namesNormalized s → namesNormalized (createOneLine s d l).1) := by
  rcases hin : l.ingredientName with _ | raw
  · simp only [createOneLine, hin]
    exact createOneLineUnit_shape s d l l.ingredientId
  · simp only [createOneLine, hin]
    cases hg : getOrCreateIngredient s raw with
    | error e =>
      refine ⟨[], by simp, by simp, by simp, by simp, by simp, by simp, fun hnorm => hnorm⟩
    | ok v =>
      obtain ⟨s1, ingId⟩ := v
      obtain ⟨hfd, hfs, hfdi, hfu, hfn⟩ := getOrCreateIngredient_frame hg
      obtain ⟨rows, h1, h2, h3, h4, h5, h6, h7⟩ :=
        createOneLineUnit_shape s1 d l (some ingId)
      refine ⟨rows, ?_, ?_, ?_, ?_, h5, h6, ?_⟩
      · rw [h1, hfd]
      · rw [h2, hfs]
      · rw [h3, hfn]
      · rw [h4, hfdi]
      · intro hnorm
        exact h7 (getOrCreateIngredient_pres hnorm hg)

theorem createLines_shape (d : Nat) : ∀ (L : List IngLine) (s : Store),
    ∃ rows, (createLines s d L).1.dishes = s.dishes ∧
      (createLines s d L).1.steps = s.steps ∧
      (createLines s d L).1.nextDishId = s.nextDishId ∧
      (createLines s d L).1.dishIngredients = s.dishIngredients ++ rows ∧
      (∀ r ∈ rows, r.dish = d) ∧
      ((createLines s d L).2 = none →
        rows.map (fun r => r.quantity) = L.map (fun x => x.quantity)) ∧
      (namesNormalized s → namesNormalized (createLines s d L).1)
  | [], s => ⟨[], by simp [createLines], by simp [createLines], by simp [createLines],
      by simp [createLines], by simp, by simp [createLines], fun hn => hn⟩
  | l :: rest, s => by
    obtain ⟨rows1, h1, h2, h3, h4, h5, h6, h7⟩ := createOneLine_shape s d l
    cases he : (createOneLine s d l).2 with
    | some e =>
      refine ⟨rows1, ?_, ?_, ?_, ?_, fun r hr => (h5 r hr).1, ?_, ?_⟩
      · simpa only [createLines, he] using h1
      · simpa only [createLines, he] using h2
      · simpa only [createLines, he] using h3
      · simpa only [createLines, he] using h4
      · simp only [createLines, he]
        intro hcon
        exact absurd hcon (by simp)
      · simpa only [createLines, he] using h7
    | none =>
      obtain ⟨rows2, g1, g2, g3, g4, g5, g6, g7⟩ :=
        createLines_shape d rest (createOneLine s d l).1
      refine ⟨rows1 ++ rows2, ?_, ?_, ?_, ?_, ?_, ?_, ?_⟩
      · simp only [createLines, he]
        rw [g1, h1]
      · simp only [createLines, he]
        rw [g2, h2]
      · simp only [createLines, he]
        rw [g3, h3]
      · simp only [createLines, he]
        rw [g4, h4, List.append_assoc]
      · intro r hr
        rcases List.mem_append.mp hr with hr | hr
        · exact (h5 r hr).1
        · exact g5 r hr
      · intro hnone
        simp only [createLines, he] at hnone
        rw [List.map_append, h6 he, g6 hnone, List.map_cons]
        rfl
      · intro hn
        simp only [createLines, he]
        exact g7 (h7 hn)

theorem createSteps_shape (d : Nat) : ∀ (SL : List StepLine) (s : Store),
    ∃ rows, (createSteps s d SL).1.dishes = s.dishes ∧
      (createSteps s d SL).1.dishIngredients = s.dishIngredients ∧
      (createSteps s d SL).1.ingredients = s.ingredients ∧
      (createSteps s d SL).1.units = s.units ∧
      (createSteps s d SL).1.nextDishId = s.nextDishId ∧
      (createSteps s d SL).1.steps = s.steps ++ rows ∧
      (∀ r ∈ rows, r.dish = d) ∧
      ((createSteps s d SL).2 = none →
        rows.map (fun r => r.stepNumber) = SL.map (fun x => x.stepNumber))
  | [], s => ⟨[], by simp [createSteps], by simp [createSteps], by simp [createSteps],
      by simp [createSteps], by simp [createSteps], by simp [createSteps],
      by simp, by simp [createSteps]⟩
  | st :: rest, s => by
    obtain ⟨rows1, h1, h2, h3, h4, h5, h6, h7, h8⟩ := createOneStep_shape s d st
    cases he : (createOneStep s d st).2 with
    | some e =>
      refine ⟨rows1, ?_, ?_, ?_, ?_, ?_, ?_, h7, ?_⟩
      · simpa only [createSteps, he] using h1
      · simpa only [createSteps, he] using h2
      · simpa only [createSteps, he] using h3
      · simpa only [createSteps, he] using h4
      · simpa only [createSteps, he] using h5
      · simpa only [createSteps, he] using h6
      · simp only [createSteps, he]
        intro hcon
        exact absurd hcon (by simp)
    | none =>
      obtain ⟨rows2, g1, g2, g3, g4, g5, g6, g7, g8⟩ :=
        createSteps_shape d rest (createOneStep s d st).1
      refine ⟨rows1 ++ rows2, ?_, ?_, ?_, ?_, ?_, ?_, ?_, ?_⟩
      · simp only [createSteps, he]
        rw [g1, h1]
      · simp only [createSteps, he]
        rw [g2, h2]
      · simp only [createSteps, he]
        rw [g3, h3]
      · simp only [createSteps, he]
        rw [g4, h4]
      · simp only [createSteps, he]
        rw [g5, h5]
      · simp only [createSteps, he]
        rw [g6, h6, List.append_assoc]
      · intro r hr
        rcases List.mem_append.mp hr with hr | hr
        · exact h7 r hr
        · exact g7 r hr
      · intro hnone
        simp only [createSteps, he] at hnone
        rw [List.map_append, h8 he, g8 hnone, List.map_cons]
        rfl

theorem createLines_pres (s : Store) (d : Nat) (L : List IngLine)
    (hn : namesNormalized s) : namesNormalized (createLines s d L).1 := by
  obtain ⟨rows, -, -, -, -, -, -, h7⟩ := createLines_shape d L s
  exact h7 hn

theorem createSteps_pres (s : Store) (d : Nat) (SL : List StepLine)
    (hn : namesNormalized s) : namesNormalized (createSteps s d SL).1 := by
  obtain ⟨rows, -, -, h3, h4, -, -, -, -⟩ := createSteps_shape d SL s
  constructor
  · intro r hr
    rw [h3] at hr
    exact hn.1 r hr
  · intro u hu
    rw [h4] at hu
    exact hn.2 u hu

theorem dishSerializerCreate_pres (s : Store) (p : DishPayload)
    (hn : namesNormalized s) : namesNormalized (dishSerializerCreate s p).1 := by
  simp only [dishSerializerCreate]
  split
  · exact hn
  · have hn0 : namesNormalized (dishInsertStore s p) := hn
    cases hres : (createLines (dishInsertStore s p) s.nextDishId p.lines).2 with
    | some e =>
      simp only [hres]
      exact createLines_pres _ _ _ hn0
    | none =>
      simp only [hres]
      exact createSteps_pres _ _ _ (createLines_pres _ _ _ hn0)

theorem dishSerializerCreate_dishes (s : Store) (p : DishPayload)
    (hfresh : (s.dishes.any (fun d => decide (d.name = p.name))) = false) :
    (dishSerializerCreate s p).1.dishes =
      s.dishes ++ [⟨s.nextDishId, p.name, p.description, p.prepTime, p.cookTime⟩] := by
  simp only [dishSerializerCreate, hfresh, Bool.false_eq_true, if_false]
  obtain ⟨rows, h1, -, -, -, -, -, -⟩ :=
    createLines_shape s.nextDishId p.lines (dishInsertStore s p)
  cases hres : (createLines (dishInsertStore s p) s.nextDishId p.lines).2 with
  | some e =>
    simp only [hres]
    rw [h1]
    rfl
  | none =>
    simp only [hres]
    obtain ⟨rows2, g1, -, -, -, -, -, -, -⟩ := createSteps_shape s.nextDishId p.stepLines
      (createLines (dishInsertStore s p) s.nextDishId p.lines).1
    rw [g1, h1]
    rfl

theorem updateLinesBlock_shape (s : Store) (dishId : Nat) (lines : List IngLine) :
    (updateLinesBlock s dishId lines).1.dishes = s.dishes ∧
    (updateLinesBlock s dishId lines).1.steps = s.steps ∧
    ((updateLinesBlock s dishId lines).2 = none →
      ∃ rows, (updateLinesBlock s dishId lines).1.dishIngredients =
          s.dishIngredients.filter (fun r => decide (r.dish ≠ dishId)) ++ rows ∧
        (∀ r ∈ rows, r.dish = dishId) ∧
        rows.map (fun r => r.quantity) = lines.map (fun x => x.quantity)) ∧
    ((updateLinesBlock s dishId lines).2 ≠ none →
      (updateLinesBlock s dishId lines).1 = s) ∧
    (namesNormalized s → namesNormalized (updateLinesBlock s dishId lines).1) := by
  obtain ⟨rows, h1, h2, h3, h4, h5, h6, h7⟩ :=
    createLines_shape dishId lines (clearDishLines s dishId)
  cases hres : (createLines (clearDishLines s dishId) dishId lines).2 with
  | none =>
    simp only [updateLinesBlock, hres]
    refine ⟨h1, h2, ?_, ?_, ?_⟩
    · intro hok
      exact ⟨rows, h4, h5, h6 hres⟩
    · intro hcon
      exact absurd rfl hcon
    · intro hn
      have hn0 : namesNormalized (clearDishLines s dishId) := hn
      exact h7 hn0
  | some e =>
    simp [updateLinesBlock, hres]

theorem updateStepsBlock_shape (s : Store) (dishId : Nat) (stepLines : List StepLine) :
    (updateStepsBlock s dishId stepLines).1.dishes = s.dishes ∧
    (updateStepsBlock s dishId stepLines).1.dishIngredients = s.dishIngredients ∧
    (updateStepsBlock s dishId stepLines).1.ingredients = s.ingredients ∧
    (updateStepsBlock s dishId stepLines).1.units = s.units ∧
    ((updateStepsBlock s dishId stepLines).2 = none →
      ∃ rows, (updateStepsBlock s dishId stepLines).1.steps =
          s.steps.filter (fun r => decide (r.dish ≠ dishId)) ++ rows ∧
        (∀ r ∈ rows, r.dish = dishId) ∧
        rows.map (fun r => r.stepNumber) = stepLines.map (fun x => x.stepNumber)) ∧
    ((updateStepsBlock s dishId stepLines).2 ≠ none →
      (updateStepsBlock s dishId stepLines).1 = s) := by
  obtain ⟨rows, h1, h2, h3, h4, h5, h6, h7, h8⟩ :=
    createSteps_shape dishId stepLines (clearDishSteps s dishId)
  cases hres : (createSteps (clearDishSteps s dishId) dishId stepLines).2 with
  | none =>
    simp only [updateStepsBlock, hres]
    refine ⟨h1, h2, h3, h4, ?_, ?_⟩
    · intro hok
      exact ⟨rows, h6, h7, h8 hres⟩
    · intro hcon
      exact absurd rfl hcon
  | some e =>
    simp [updateStepsBlock, hres]

theorem updateLinesBlock_pres (s : Store) (dishId : Nat) (lns : List IngLine)
    (hn : namesNormalized s) : namesNormalized (updateLinesBlock s dishId lns).1 :=
  (updateLinesBlock_shape s dishId lns).2.2.2.2 hn

theorem updateStepsBlock_pres (s : Store) (dishId : Nat) (sts : List StepLine)
    (hn : namesNormalized s) : namesNormalized (updateStepsBlock s dishId sts).1 := by
  obtain ⟨-, -, h3, h4, -, -⟩ := updateStepsBlock_shape s dishId sts
  constructor
  · intro r hr
    rw [h3] at hr
    exact hn.1 r hr
  · intro u hu
    rw [h4] at hu
    exact hn.2 u hu

theorem dishSerializerUpdate_pres (s : Store) (dishId : Nat) (p : DishUpdatePayload)
    (hn : namesNormalized s) : namesNormalized (dishSerializerUpdate s dishId p).1 := by
  simp only [dishSerializerUpdate]
  split
  · exact hn
  next old hfind =>
    split
    · exact hn
    · have hn0 : namesNormalized (replaceDishRow s dishId (applyDishFields old p)) := hn
      cases hpl : p.lines with
      | none =>
        cases hps : p.stepLines with
        | none => exact hn0
        | some sts => exact updateStepsBlock_pres _ _ _ hn0
      | some lns =>
        cases hres : (updateLinesBlock (replaceDishRow s dishId (applyDishFields old p)) dishId lns).2 with
        | some e =>
          simp only [hres]
          exact updateLinesBlock_pres _ _ _ hn0
        | none =>
          simp only [hres]
          have hn1 := updateLinesBlock_pres (replaceDishRow s dishId (applyDishFields old p)) dishId lns hn0
          cases hps : p.stepLines with
          | none => exact hn1
          | some sts => exact updateStepsBlock_pres _ _ _ hn1

theorem ingredientDelete_pres (s : Store) (pk : Nat) (hn : namesNormalized s) :
    namesNormalized (ingredientDelete s pk) := by
  constructor
  · intro r hr
    exact hn.1 r (List.mem_of_mem_filter hr)
  · exact hn.2

theorem dishDelete_pres (s : Store) (pk : Nat) (hn : namesNormalized s) :
    namesNormalized (dishDelete s pk) := hn

theorem groceryDelete_pres (s : Store) (pk : Nat) (hn : namesNormalized s) :
    namesNormalized (groceryDelete s pk) := hn

theorem getSimilarTerms_normalize (g : List (List (List Nat))) (x : List Nat) :
    getSimilarTerms g (normalizeNameS x) = getSimilarTerms g x := by
  simp only [getSimilarTerms]
  rw [show pyLower (pyStrip (normalizeNameS x)) = pyLower (pyStrip x) from normalizeNameS_idem x]

theorem getSimilarTerms_pyStrip (g : List (List (List Nat))) (x : List Nat) :
    getSimilarTerms g (pyStrip x) = getSimilarTerms g x := by
  simp only [getSimilarTerms]
  rw [pyStrip_idem]

theorem normalize_pyStrip (x : List Nat) :
    normalizeNameS (pyStrip x) = normalizeNameS x := by
  unfold normalizeNameS
  rw [pyStrip_idem]

theorem normalizeNameS_length (x : List Nat) :
    (normalizeNameS x).length = (pyStrip x).length := by
  unfold normalizeNameS pyLower
  exact List.length_map _ _

theorem normalizeNameS_ne_nil (x : List Nat) (h : pyStrip x ≠ []) :
    normalizeNameS x ≠ [] := by
  unfold normalizeNameS pyLower
  simpa using h

theorem ingredientFullClean_none (s : Store) (name : List Nat)
    (hmod : ∀ r ∈ s.ingredients, ∀ t ∈ getSimilarTerms similarGroupsModels name,
      iexact r.name t = false)
    (hexact : ∀ r ∈ s.ingredients, r.name ≠ name)
    (hblank : name ≠ [])
    (hlen : name.length ≤ 100) :
    ingredientFullClean s none name = none := by
  have hfield : ingredientFieldErr name = none := by
    unfold ingredientFieldErr
    rw [if_neg hblank, if_neg (by omega)]
  have hterms : getSimilarTerms similarGroupsModels (normalizeNameM name true false false) =
      getSimilarTerms similarGroupsModels name := getSimilarTerms_normalize _ _
  have hclean : ingredientCleanErr s none name = none := by
    simp only [ingredientCleanErr, hterms]
    rw [List.filter_eq_nil_iff.mpr]
    intro r hr
    simp only [Bool.and_eq_true, decide_eq_true_eq, List.any_eq_true, not_and, not_exists]
    intro hall
    obtain ⟨t, ht, hi⟩ := hall
    rw [hmod r hr t ht] at hi
    exact absurd hi (by simp)
  simp only [ingredientFullClean, hfield, hclean]
  rw [if_neg]
  simp only [Bool.and_eq_true, decide_eq_true_eq, List.any_eq_true, not_exists]
  intro r
  simp only [not_and]
  intro hr hname
  exact absurd hname (hexact r hr)

theorem getOrCreateIngredient_creates (s : Store) (raw : List Nat)
    (hser : ∀ r ∈ s.ingredients, ∀ t ∈ getSimilarTerms similarGroupsSerializers raw,
      iexact r.name t = false)
    (hmod : ∀ r ∈ s.ingredients, ∀ t ∈ getSimilarTerms similarGroupsModels raw,
      iexact r.name t = false)
    (hexact1 : ∀ r ∈ s.ingredients, r.name ≠ pyStrip raw)
    (hexact2 : ∀ r ∈ s.ingredients, r.name ≠ normalizeNameS raw)
    (hblank : pyStrip raw ≠ [])
    (hlen : (pyStrip raw).length ≤ 100) :
    getOrCreateIngredient s raw =
      .ok ({ s with ingredients := s.ingredients ++ [⟨s.nextIngredientId, normalizeNameS raw⟩], nextIngredientId := s.nextIngredientId + 1 }, s.nextIngredientId) := by
  have hfind : s.ingredients.find?
      (fun r => (getSimilarTerms similarGroupsSerializers (normalizeNameS raw)).any
        (fun t => iexact r.name t)) = none := by
    rw [List.find?_eq_none]
    intro r hr
    simp only [List.any_eq_true, not_exists]
    intro t
    simp only [not_and]
    intro ht hi
    rw [getSimilarTerms_normalize] at ht
    rw [hser r hr t ht] at hi
    exact absurd hi (by simp)
  have hfc1 : ingredientFullClean s none (pyStrip raw) = none := by
    apply ingredientFullClean_none
    · intro r hr t ht
      rw [getSimilarTerms_pyStrip] at ht
      exact hmod r hr t ht
    · exact hexact1
    · exact hblank
    · exact hlen
  have hfc2 : ingredientFullClean s none (normalizeNameM (pyStrip raw) true false false) = none := by
    apply ingredientFullClean_none
    · intro r hr t ht
      rw [show getSimilarTerms similarGroupsModels (normalizeNameM (pyStrip raw) true false false) = getSimilarTerms similarGroupsModels (pyStrip raw) from getSimilarTerms_normalize _ _, getSimilarTerms_pyStrip] at ht
      exact hmod r hr t ht
    · intro r hr
      rw [show normalizeNameM (pyStrip raw) true false false = normalizeNameS raw from normalize_pyStrip raw]
      exact hexact2 r hr
    · rw [show normalizeNameM (pyStrip raw) true false false = normalizeNameS raw from normalize_pyStrip raw]
      exact normalizeNameS_ne_nil raw hblank
    · rw [show normalizeNameM (pyStrip raw) true false false = normalizeNameS raw from normalize_pyStrip raw]
      rw [normalizeNameS_length]
      exact hlen
  simp only [getOrCreateIngredient, hfind, hfc1]
  simp only [ingredientSaveNew, hfc2]
  rw [show normalizeNameM (pyStrip raw) true false false = normalizeNameS raw from normalize_pyStrip raw]

theorem createLineInsert_ok (s : Store) (d : Nat) (q : Int) (i u : Nat)
    (hnodup : ∀ r ∈ s.dishIngredients, ¬(r.dish = d ∧ r.ingredient = i)) :
    createLineInsert s d q (some i) (some u) =
      ({ s with dishIngredients := s.dishIngredients ++ [⟨d, i, q, u⟩] }, none) := by
  simp only [createLineInsert]
  rw [if_neg]
  simp only [List.any_eq_true, Bool.and_eq_true, decide_eq_true_eq, not_exists]
  intro r
  simp only [not_and]
  intro hr h1 h2
  exact hnodup r hr ⟨h1, h2⟩

theorem getOrCreateIngredient_reuses (s : Store) (raw : List Nat) (r : IngredientRow)
    (hfind : s.ingredients.find?
      (fun r => (getSimilarTerms similarGroupsSerializers (normalizeNameS raw)).any
        (fun t => iexact r.name t)) = some r) :
    getOrCreateIngredient s raw = .ok (s, r.id) := by
  simp only [getOrCreateIngredient, hfind]

theorem getOrCreateUnit_reuses (s : Store) (raw : List Nat) (u : UnitRow)
    (hfind : s.units.find?
      (fun u => unitTermMatch (getSimilarTerms similarGroupsSerializers (normalizeNameS raw)) u) = some u) :
    getOrCreateUnit s raw = .ok (s, u.id) := by
  simp only [getOrCreateUnit, hfind]

theorem normalizeNameS_head_not_space (x : List Nat) (c : Nat)
    (h : (normalizeNameS x).head? = some c) : isPySpace c = false := by
  unfold normalizeNameS pyLower at h
  rw [List.head?_map] at h
  obtain ⟨c0, hc0, hmap⟩ := Option.map_eq_some'.mp h
  have hpre := reverse_dropWhile_reverse_prefix isPySpace (List.dropWhile isPySpace x)
  have hc0' : (List.dropWhile isPySpace x).head? = some c0 := head_of_prefix hpre c0 hc0
  have hps := head_dropWhile_false isPySpace x c0 hc0'
  rw [← hmap, isPySpace_pyLowerChar]
  exact hps

theorem normalizeNameS_getLast_not_space (x : List Nat) (c : Nat)
    (h : (normalizeNameS x).getLast? = some c) : isPySpace c = false := by
  unfold normalizeNameS pyStrip pyLower at h
  rw [List.map_reverse, List.getLast?_reverse, List.head?_map] at h
  obtain ⟨c0, hc0, hmap⟩ := Option.map_eq_some'.mp h
  have hps := head_dropWhile_false isPySpace (List.dropWhile isPySpace x).reverse c0 hc0
  rw [← hmap, isPySpace_pyLowerChar]
  exact hps

theorem normalizeNameS_no_upper (x : List Nat) (c : Nat) (hc : c ∈ normalizeNameS x) :
    pyLowerChar c = c := by
  unfold normalizeNameS pyLower at hc
  obtain ⟨c0, hc0, hmap⟩ := List.mem_map.mp hc
  rw [← hmap]
  exact pyLowerChar_idem c0

/-- Claim C4, counterexample.  The claim says the normalizer reduces
ingredient names to their singular grammatical form and strips one
trailing `s` from unit names; in the code `_normalize_name` only trims
and lower-cases, so `Tomatoes` normalizes to `tomatoes` (not `tomato`)
with the ingredient flag set, and `Cups` normalizes to `cups` (not
`cup`) with the unit flag set. -/
theorem c4_counterexample :
    normalizeNameM (codes ("Tomatoes")) true false false = codes ("tomatoes") ∧
    codes ("tomatoes") ≠ codes ("tomato") ∧
    normalizeNameM (codes ("Cups")) false true false = codes ("cups") ∧
    codes ("cups") ≠ codes ("cup") := by decide

/-- Claim C4, amended: for every raw input string the normalizer trims
whitespace and ASCII-lower-cases it, identically for every entity kind
(the `is_ingredient` / `is_unit` / `is_abbr` flags have no effect, and
the models and serializers copies agree); it is a pure idempotent
function whose output has no leading or trailing whitespace and no
upper-case ASCII letter.  No singularization or trailing-`s` stripping
is performed. -/
theorem c4_amended (name : List Nat) (i u a i2 u2 a2 : Bool) :
    normalizeNameM name i u a = normalizeNameM name i2 u2 a2 ∧
    normalizeNameM name i u a = normalizeNameS name ∧
    normalizeNameM name i u a = pyLower (pyStrip name) ∧
    normalizeNameM (normalizeNameM name i u a) i2 u2 a2 = normalizeNameM name i u a ∧
    (∀ c, (normalizeNameM name i u a).head? = some c → isPySpace c = false) ∧
    (∀ c, (normalizeNameM name i u a).getLast? = some c → isPySpace c = false) ∧
    (∀ c ∈ normalizeNameM name i u a, pyLowerChar c = c) := by
  refine ⟨rfl, rfl, rfl, normalizeNameS_idem name, ?_, ?_, ?_⟩
  · exact normalizeNameS_head_not_space name
  · exact normalizeNameS_getLast_not_space name
  · exact normalizeNameS_no_upper name

/-- Claim C3, counterexample.  The claim says that after `Tomatoes` is
created, creating `tomato` must fail as a conflict.  In the code both
the model path (`Ingredient.save` with `full_clean`) and the API path
(`IngredientSerializer`) accept `tomato`: no singular/plural folding is
performed and `tomato`/`tomatoes` belong to no similar-term group, so a
second ingredient row is created. -/
theorem c3_counterexample :
    ingredientSaveNew emptyStore (codes ("Tomatoes")) = .ok (tomatoesStore, 0) ∧
    ingredientSaveNew tomatoesStore (codes ("tomato")) = .ok (tomatoStore2, 1) ∧
    ingredientValidateName tomatoesStore none (codes ("tomato")) = none ∧
    ingredientSerializerCreate tomatoesStore (codes ("tomato")) = .ok (tomatoStore2, 1) := by
  decide

/-- Claim C3, amended: after `Tomatoes` is created (stored normalized as
`tomatoes`), creating `tomato` succeeds and a second, distinct
ingredient row persists; the duplicate detection only rejects names
equal case-insensitively after trimming (for example `  TOMATOES `) or
names in the same hard-coded unit-synonym group — it never folds
singular and plural forms of ordinary ingredient names. -/
theorem c3_amended :
    ingredientSaveNew tomatoesStore (codes ("tomato")) = .ok (tomatoStore2, 1) ∧
    tomatoStore2.ingredients = [⟨0, codes ("tomatoes")⟩, ⟨1, codes ("tomato")⟩] ∧
    ingredientSaveNew tomatoesStore (codes ("  TOMATOES ")) =
      .error (WErr.ingredientConflict 0 (codes ("tomatoes"))) ∧
    ingredientValidateName tomatoesStore none (codes ("TOMATOES")) =
      some (WErr.ingredientConflict 0 (codes ("tomatoes"))) := by
  decide

/-- Claim C2, code evaluation.  The claim (and the validator's own
message `Quantity must be greater than 0`) requires quantities to be
strictly positive, but `MinValueValidator(0)` only rejects values below
0: quantity 0 passes validation, and the nested dish create persists a
`DishIngredient` row with quantity 0 (`objects.create` runs no
validators at all). -/
theorem c2_quantity_zero_accepted :
    quantityValidatorErrors 0 = [] ∧
    quantityValidatorErrors (-1) = [("Quantity must be greater than 0")] ∧
    (dishSerializerCreate flourCupStore qtyZeroPayload).2 = none ∧
    (dishSerializerCreate flourCupStore qtyZeroPayload).1.dishIngredients =
      [⟨5, 1, 0, 1⟩] := by
  decide

/-- Claim C1, counterexample.  The claim says the nested dish create is
all-or-nothing.  `DishSerializer.create` runs outside any transaction:
with two ingredient lines referencing the same ingredient, the second
join-row insert fails, the operation errors, and yet the new `Dish` row
and the first `DishIngredient` row persist — the store is changed. -/
theorem c1_counterexample :
    (dishSerializerCreate flourCupStore dupLinePayload).2 =
      some WErr.duplicateDishIngredient ∧
    (dishSerializerCreate flourCupStore dupLinePayload).1 ≠ flourCupStore ∧
    (dishSerializerCreate flourCupStore dupLinePayload).1.dishes =
      flourCupStore.dishes ++ [⟨5, codes ("bread"), [], 10, 20⟩] ∧
    (dishSerializerCreate flourCupStore dupLinePayload).1.dishIngredients =
      [⟨5, 1, 200, 1⟩] := by
  decide

/-- Claim C1, amended: `DishSerializer.create` is not atomic.  Whenever
the payload's dish name is fresh, the new `Dish` row is inserted and is
never rolled back — it is present in the resulting store even when a
later ingredient line or step fails — and the join rows and steps
created before a failure likewise persist (the tables only ever grow
during the request).  The example failure of the original claim also
does not exist: a quantity of 0 fails nothing (see C2). -/
theorem c1_amended (s : Store) (p : DishPayload)
    (hfresh : (s.dishes.any (fun d => decide (d.name = p.name))) = false) :
    (dishSerializerCreate s p).1.dishes =
      s.dishes ++ [⟨s.nextDishId, p.name, p.description, p.prepTime, p.cookTime⟩] ∧
    (∃ rows, (dishSerializerCreate s p).1.dishIngredients = s.dishIngredients ++ rows) ∧
    (∃ rows, (dishSerializerCreate s p).1.steps = s.steps ++ rows) := by
  refine ⟨dishSerializerCreate_dishes s p hfresh, ?_, ?_⟩
  · simp only [dishSerializerCreate, hfresh, Bool.false_eq_true, if_false]
    obtain ⟨rows, -, -, -, h4, -, -, -⟩ :=
      createLines_shape s.nextDishId p.lines (dishInsertStore s p)
    cases hres : (createLines (dishInsertStore s p) s.nextDishId p.lines).2 with
    | some e =>
      simp only [hres]
      exact ⟨rows, h4⟩
    | none =>
      simp only [hres]
      obtain ⟨rows2, -, g2, -, -, -, -, -, -⟩ := createSteps_shape s.nextDishId p.stepLines
        (createLines (dishInsertStore s p) s.nextDishId p.lines).1
      refine ⟨rows, ?_⟩
      rw [g2, h4]
      rfl
  · simp only [dishSerializerCreate, hfresh, Bool.false_eq_true, if_false]
    obtain ⟨rows, -, h2, -, -, -, -, -⟩ :=
      createLines_shape s.nextDishId p.lines (dishInsertStore s p)
    cases hres : (createLines (dishInsertStore s p) s.nextDishId p.lines).2 with
    | some e =>
      simp only [hres]
      refine ⟨[], ?_⟩
      rw [List.append_nil, h2]
      rfl
    | none =>
      simp only [hres]
      obtain ⟨rows2, -, -, -, -, -, g6, -, -⟩ := createSteps_shape s.nextDishId p.stepLines
        (createLines (dishInsertStore s p) s.nextDishId p.lines).1
      refine ⟨rows2, ?_⟩
      rw [g6, h2]
      rfl

theorem c1_witness :
    (dishSerializerCreate flourCupStore dupLinePayload).1.dishes =
      flourCupStore.dishes ++
        [⟨flourCupStore.nextDishId, dupLinePayload.name, dupLinePayload.description,
          dupLinePayload.prepTime, dupLinePayload.cookTime⟩] ∧
    (∃ rows, (dishSerializerCreate flourCupStore dupLinePayload).1.dishIngredients =
      flourCupStore.dishIngredients ++ rows) ∧
    (∃ rows, (dishSerializerCreate flourCupStore dupLinePayload).1.steps =
      flourCupStore.steps ++ rows) :=
  c1_amended flourCupStore dupLinePayload (by decide)

/-- Claim C5: `Dish` validation accepts `prep_time` exactly in
`[1, 1440]` and `cook_time` exactly in `[0, 1440]`, rejects every dish
whose `prep_time + cook_time` exceeds 240, collects all violations into
one field-tagged error object instead of failing fast, tags the
total-time violation under `cook_time`; `prep_time=200, cook_time=100`
fails with exactly one `cook_time`-tagged total-time error and
`prep_time=60, cook_time=30` passes. -/
theorem c5_dish_time_validation :
    (∀ p c : Nat, dishFullCleanErrors (some p) (some c) = [] ↔
      (1 ≤ p ∧ p ≤ 1440 ∧ c ≤ 1440 ∧ p + c ≤ 240)) ∧
    (∀ p c : Nat, p + c > 240 →
      (FieldTag.cookTime, msgTotal) ∈ dishFullCleanErrors (some p) (some c)) ∧
    dishFullCleanErrors (some 200) (some 100) = [(FieldTag.cookTime, msgTotal)] ∧
    dishFullCleanErrors (some 60) (some 30) = [] ∧
    dishFullCleanErrors (some 0) (some 2000) =
      [(FieldTag.prepTime, msgPrepMin), (FieldTag.cookTime, msgCookMax),
       (FieldTag.cookTime, msgTotal)] := by
  refine ⟨?_, ?_, by decide, by decide, by decide⟩
  · intro p c
    simp only [dishFullCleanErrors, dishFieldErrors, dishCleanErrors]
    split_ifs <;> simp_all <;> omega
  · intro p c h
    simp only [dishFullCleanErrors, dishFieldErrors, dishCleanErrors]
    split_ifs <;> simp_all

theorem c5_witness :
    (FieldTag.cookTime, msgTotal) ∈ dishFullCleanErrors (some 241) (some 0) :=
  c5_dish_time_validation.2.1 241 0 (by decide)

/-- Claim C6: once any unit row carries the abbreviation `tbsp` (as the
unit `Tablespoon`/`tbsp` does after normalization), every attempt to
create a unit named `tablespoons` fails with a conflict error that
carries a conflicting record's id and name, the match being found
across both the name and the abbreviation columns through the
tablespoon synonym group. -/
theorem c6_unit_synonym_conflict (s : Store) (u : UnitRow)
    (hu : u ∈ s.units) (habbr : pyLower u.abbr = codes ("tbsp")) :
    ∃ c ∈ s.units, unitSaveNew s (codes ("tablespoons")) [] =
        .error (WErr.unitConflict UField.nameField c.id c.name) ∧
      ∃ t ∈ getSimilarTerms similarGroupsModels (codes ("tablespoons")),
        (iexact c.name t = true ∨ iexact c.abbr t = true) := by
  have hnorm : normalizeNameM (codes ("tablespoons")) false true false =
      codes ("tablespoons") := by decide
  have htbsp : codes ("tbsp") ∈
      getSimilarTerms similarGroupsModels (codes ("tablespoons")) := by decide
  have hpredu : (unitTermMatch (getSimilarTerms similarGroupsModels (codes ("tablespoons"))) u
      && decide (some u.id ≠ (none : Option Nat))) = true := by
    simp only [Bool.and_eq_true, decide_eq_true_eq]
    refine ⟨?_, by simp⟩
    simp only [unitTermMatch, List.any_eq_true]
    refine ⟨codes ("tbsp"), htbsp, ?_⟩
    simp only [Bool.or_eq_true]
    right
    simp only [iexact, decide_eq_true_eq]
    rw [habbr]
    decide
  have hfe : unitFieldErr (codes ("tablespoons")) [] = none := by decide
  have habr : (if ([] : List Nat) ≠ [] then normalizeNameM ([] : List Nat) false false true
      else []) = ([] : List Nat) := by decide
  cases hf : s.units.filter
      (fun v => unitTermMatch (getSimilarTerms similarGroupsModels (codes ("tablespoons"))) v
        && decide (some v.id ≠ (none : Option Nat))) with
  | nil =>
    exfalso
    have hmem : u ∈ s.units.filter
        (fun v => unitTermMatch (getSimilarTerms similarGroupsModels (codes ("tablespoons"))) v
          && decide (some v.id ≠ (none : Option Nat))) :=
      List.mem_filter.mpr ⟨hu, hpredu⟩
    rw [hf] at hmem
    simp at hmem
  | cons c rest =>
    have hcmem : c ∈ s.units.filter
        (fun v => unitTermMatch (getSimilarTerms similarGroupsModels (codes ("tablespoons"))) v
          && decide (some v.id ≠ (none : Option Nat))) := by
      rw [hf]
      exact List.mem_cons_self c rest
    obtain ⟨hcs, hcpred⟩ := List.mem_filter.mp hcmem
    have hclean : unitCleanErr s none (codes ("tablespoons")) [] =
        some (WErr.unitConflict UField.nameField c.id c.name) := by
      simp only [unitCleanErr, hf]
    have hful : unitFullClean s none (codes ("tablespoons")) [] =
        some (WErr.unitConflict UField.nameField c.id c.name) := by
      simp only [unitFullClean, hfe, hclean]
    refine ⟨c, hcs, ?_, ?_⟩
    · simp only [unitSaveNew, hnorm, habr, hful]
    · simp only [Bool.and_eq_true] at hcpred
      obtain ⟨hterm, -⟩ := hcpred
      simp only [unitTermMatch, List.any_eq_true, Bool.or_eq_true] at hterm
      obtain ⟨t, ht, hcase⟩ := hterm
      exact ⟨t, ht, hcase⟩

theorem c6_witness :
    ∃ c ∈ tbspStore.units, unitSaveNew tbspStore (codes ("tablespoons")) [] =
        .error (WErr.unitConflict UField.nameField c.id c.name) ∧
      ∃ t ∈ getSimilarTerms similarGroupsModels (codes ("tablespoons")),
        (iexact c.name t = true ∨ iexact c.abbr t = true) :=
  c6_unit_synonym_conflict tbspStore ⟨1, codes ("tablespoon"), codes ("tbsp")⟩
    (by decide) (by decide)

/-- Claim C10: a grocery item whose trimmed name equals another grocery
item's name ignoring letter case is rejected with a validation error
carrying the attempted (duplicate) name, and every accepted name is
stored trimmed and title-cased — first letter of each word capitalized —
unlike the lower-cased Ingredient and Unit names (shown on the concrete
name `  green beans `). -/
theorem c10_grocery_name_rules (s : Store) (selfPk : Option Nat) (value : List Nat) :
    ((pyStrip value ≠ [] ∧
        ∃ g ∈ s.groceries, iexact g.name (pyStrip value) = true ∧ some g.id ≠ selfPk) →
      groceryValidateName s selfPk value =
        .error (GroceryErr.duplicateName (pyStrip value))) ∧
    ((pyStrip value ≠ [] ∧
        ∀ g ∈ s.groceries, iexact g.name (pyStrip value) = true → some g.id = selfPk) →
      groceryValidateName s selfPk value = .ok (pyTitle (pyStrip value))) ∧
    pyTitle (pyStrip (codes ("  green beans "))) = codes ("Green Beans") ∧
    pyTitle (pyStrip (codes ("  green beans "))) ≠
      pyLower (pyStrip (codes ("  green beans "))) := by
  refine ⟨?_, ?_, by decide, by decide⟩
  · rintro ⟨hblank, g, hg, hiex, hpk⟩
    simp only [groceryValidateName]
    rw [if_neg hblank, if_pos]
    rw [List.any_eq_true]
    refine ⟨g, hg, ?_⟩
    simp only [hiex, Bool.true_and, decide_eq_true_eq]
    exact hpk
  · rintro ⟨hblank, hall⟩
    simp only [groceryValidateName]
    rw [if_neg hblank, if_neg]
    simp only [List.any_eq_true, Bool.and_eq_true, decide_eq_true_eq, not_exists]
    intro g
    simp only [not_and]
    intro hg hiex hpk
    exact hpk (hall g hg hiex)

theorem c10_witness :
    groceryValidateName milkStore none (codes (" milk ")) =
      .error (GroceryErr.duplicateName (codes ("milk"))) := by
  have h := (c10_grocery_name_rules milkStore none (codes (" milk "))).1
    (by refine ⟨by decide, ⟨1, codes ("Milk"), false, false⟩, by decide, by decide, by decide⟩)
  exact h

/-- Claim C7: on dish update a supplied ingredient-line list (resp. step
list) fully replaces the dish's prior `DishIngredient` (resp.
`CookingStep`) rows with rows built from the new list, while an omitted
list leaves the corresponding rows completely unchanged; the dish's own
scalar fields are updated in every case (given the dish exists and the
new name collides with no other dish). -/
theorem c7_update_replace_or_preserve (s : Store) (dishId : Nat) (p : DishUpdatePayload) :
    (p.lines = none →
      (dishSerializerUpdate s dishId p).1.dishIngredients = s.dishIngredients) ∧
    (p.stepLines = none →
      (dishSerializerUpdate s dishId p).1.steps = s.steps) ∧
    (∀ old, s.dishes.find? (fun d => decide (d.id = dishId)) = some old →
      (s.dishes.any (fun d => decide (d.id ≠ dishId) &&
        decide (d.name = (applyDishFields old p).name))) = false →
      (dishSerializerUpdate s dishId p).1.dishes =
        s.dishes.map (fun d => if d.id = dishId then applyDishFields old p else d)) ∧
    (∀ lns, p.lines = some lns → (dishSerializerUpdate s dishId p).2 = none →
      ∃ rows, (dishSerializerUpdate s dishId p).1.dishIngredients =
          s.dishIngredients.filter (fun r => decide (r.dish ≠ dishId)) ++ rows ∧
        (∀ r ∈ rows, r.dish = dishId) ∧
        rows.map (fun r => r.quantity) = lns.map (fun x => x.quantity)) ∧
    (∀ sts, p.stepLines = some sts → (dishSerializerUpdate s dishId p).2 = none →
      ∃ rows, (dishSerializerUpdate s dishId p).1.steps =
          s.steps.filter (fun r => decide (r.dish ≠ dishId)) ++ rows ∧
        (∀ r ∈ rows, r.dish = dishId) ∧
        rows.map (fun r => r.stepNumber) = sts.map (fun x => x.stepNumber)) := by
  refine ⟨?_, ?_, ?_, ?_, ?_⟩
  · -- (a) omitted line list leaves join rows untouched
    intro hpl
    simp only [dishSerializerUpdate]
    cases hfind : s.dishes.find? (fun d => decide (d.id = dishId)) with
    | none => simp only [hfind]
    | some old =>
      simp only [hfind]
      split
      · rfl
      · simp only [hpl]
        cases hps : p.stepLines with
        | none => rfl
        | some sts =>
          have h := (updateStepsBlock_shape
            (replaceDishRow s dishId (applyDishFields old p)) dishId sts).2.1
          rw [h]
          rfl
  · -- (b) omitted step list leaves steps untouched
    intro hps
    simp only [dishSerializerUpdate]
    cases hfind : s.dishes.find? (fun d => decide (d.id = dishId)) with
    | none => simp only [hfind]
    | some old =>
      simp only [hfind]
      split
      · rfl
      · cases hpl : p.lines with
        | none =>
          simp only [hps]
          rfl
        | some lns =>
          cases hres : (updateLinesBlock
              (replaceDishRow s dishId (applyDishFields old p)) dishId lns).2 with
          | some e =>
            simp only [hres]
            have h := (updateLinesBlock_shape
              (replaceDishRow s dishId (applyDishFields old p)) dishId lns).2.1
            rw [h]
            rfl
          | none =>
            simp only [hres, hps]
            have h := (updateLinesBlock_shape
              (replaceDishRow s dishId (applyDishFields old p)) dishId lns).2.1
            rw [h]
            rfl
  · -- (c) dish scalar fields are updated
    intro old hfind hnodup
    simp only [dishSerializerUpdate, hfind]
    rw [if_neg (by rw [hnodup]; simp)]
    cases hpl : p.lines with
    | none =>
      cases hps : p.stepLines with
      | none => rfl
      | some sts =>
        have h := (updateStepsBlock_shape
          (replaceDishRow s dishId (applyDishFields old p)) dishId sts).1
        rw [h]
        rfl
    | some lns =>
      cases hres : (updateLinesBlock
          (replaceDishRow s dishId (applyDishFields old p)) dishId lns).2 with
      | some e =>
        simp only [hres]
        have h := (updateLinesBlock_shape
          (replaceDishRow s dishId (applyDishFields old p)) dishId lns).1
        rw [h]
        rfl
      | none =>
        simp only [hres]
        cases hps : p.stepLines with
        | none =>
          have h := (updateLinesBlock_shape
            (replaceDishRow s dishId (applyDishFields old p)) dishId lns).1
          rw [h]
          rfl
        | some sts =>
          have h2 := (updateStepsBlock_shape
            (updateLinesBlock (replaceDishRow s dishId (applyDishFields old p)) dishId lns).1
            dishId sts).1
          have h1 := (updateLinesBlock_shape
            (replaceDishRow s dishId (applyDishFields old p)) dishId lns).1
          rw [h2, h1]
          rfl
  · -- (d) supplied line list fully replaces the dish's join rows
    intro lns hpl hsucc
    simp only [dishSerializerUpdate] at hsucc ⊢
    cases hfind : s.dishes.find? (fun d => decide (d.id = dishId)) with
    | none =>
      rw [hfind] at hsucc
      exact absurd hsucc (by simp)
    | some old =>
      simp only [hfind] at hsucc
      simp only [hfind]
      by_cases hdup : (s.dishes.any (fun d => decide (d.id ≠ dishId) &&
          decide (d.name = (applyDishFields old p).name))) = true
      · rw [if_pos hdup] at hsucc
        exact absurd hsucc (by simp)
      · rw [if_neg hdup] at hsucc
        rw [if_neg hdup]
        simp only [hpl] at hsucc ⊢
        cases hres : (updateLinesBlock
            (replaceDishRow s dishId (applyDishFields old p)) dishId lns).2 with
        | some e =>
          rw [hres] at hsucc
          simp only [] at hsucc
          exact absurd hsucc (by simp)
        | none =>
          simp only [hres] at hsucc ⊢
          obtain ⟨rows, hdi, hdish, hq⟩ := (updateLinesBlock_shape
            (replaceDishRow s dishId (applyDishFields old p)) dishId lns).2.2.1 hres
          cases hps : p.stepLines with
          | none => exact ⟨rows, hdi, hdish, hq⟩
          | some sts =>
            have hstep := (updateStepsBlock_shape
              (updateLinesBlock (replaceDishRow s dishId (applyDishFields old p)) dishId lns).1
              dishId sts).2.1
            refine ⟨rows, ?_, hdish, hq⟩
            rw [hstep, hdi]
            rfl
  · -- (e) supplied step list fully replaces the dish's steps
    intro sts hps hsucc
    simp only [dishSerializerUpdate] at hsucc ⊢
    cases hfind : s.dishes.find? (fun d => decide (d.id = dishId)) with
    | none =>
      rw [hfind] at hsucc
      exact absurd hsucc (by simp)
    | some old =>
      simp only [hfind] at hsucc
      simp only [hfind]
      by_cases hdup : (s.dishes.any (fun d => decide (d.id ≠ dishId) &&
          decide (d.name = (applyDishFields old p).name))) = true
      · rw [if_pos hdup] at hsucc
        exact absurd hsucc (by simp)
      · rw [if_neg hdup] at hsucc
        rw [if_neg hdup]
        cases hpl : p.lines with
        | none =>
          simp only [hpl, hps] at hsucc ⊢
          obtain ⟨rows, hst, hdish, hq⟩ := (updateStepsBlock_shape
            (replaceDishRow s dishId (applyDishFields old p)) dishId sts).2.2.2.2.1 hsucc
          exact ⟨rows, hst, hdish, hq⟩
        | some lns =>
          simp only [hpl] at hsucc ⊢
          cases hres : (updateLinesBlock
              (replaceDishRow s dishId (applyDishFields old p)) dishId lns).2 with
          | some e =>
            rw [hres] at hsucc
            simp only [] at hsucc
            exact absurd hsucc (by simp)
          | none =>
            simp only [hres, hps] at hsucc ⊢
            obtain ⟨rows, hst, hdish, hq⟩ := (updateStepsBlock_shape
              (updateLinesBlock (replaceDishRow s dishId (applyDishFields old p)) dishId lns).1
              dishId sts).2.2.2.2.1 hsucc
            refine ⟨rows, ?_, hdish, hq⟩
            rw [hst]
            have hlsteps := (updateLinesBlock_shape
              (replaceDishRow s dishId (applyDishFields old p)) dishId lns).2.1
            rw [hlsteps]
            rfl

theorem c7_witness :
    (dishSerializerUpdate twoDishStore 1 prepOnlyUpdate).1.dishIngredients =
      twoDishStore.dishIngredients ∧
    (dishSerializerUpdate twoDishStore 1 prepOnlyUpdate).1.steps = twoDishStore.steps :=
  ⟨(c7_update_replace_or_preserve twoDishStore 1 prepOnlyUpdate).1 rfl,
   (c7_update_replace_or_preserve twoDishStore 1 prepOnlyUpdate).2.1 rfl⟩

/-- Claim C9: creating a dish with two ingredient lines — one
referencing an existing ingredient by id and one supplying a new name
whose similar-term set matches no existing ingredient — succeeds and
creates exactly one new `Ingredient` row (stored normalized) and exactly
two `DishIngredient` rows; and whenever a supplied name's
case-insensitive similar-term search does match an existing `Ingredient`
or `Unit` row, the first matching row is reused and the store is left
unchanged. -/
theorem c9_two_line_create (s : Store) (p : DishPayload) (i0 u0 : Nat) (q1 q2 : Int)
    (rawName : List Nat) (r0 : IngredientRow)
    (hp1 : p.lines = [⟨some i0, none, some u0, none, q1⟩, ⟨none, some rawName, some u0, none, q2⟩])
    (hp2 : p.stepLines = [])
    (hr0 : r0 ∈ s.ingredients) (hr0id : r0.id = i0)
    (hser : ∀ r ∈ s.ingredients, ∀ t ∈ getSimilarTerms similarGroupsSerializers rawName,
      iexact r.name t = false)
    (hmod : ∀ r ∈ s.ingredients, ∀ t ∈ getSimilarTerms similarGroupsModels rawName,
      iexact r.name t = false)
    (hexact1 : ∀ r ∈ s.ingredients, r.name ≠ pyStrip rawName)
    (hexact2 : ∀ r ∈ s.ingredients, r.name ≠ normalizeNameS rawName)
    (hblank : pyStrip rawName ≠ [])
    (hlen : (pyStrip rawName).length ≤ 100)
    (hfresh : (s.dishes.any (fun d => decide (d.name = p.name))) = false)
    (hnodi : ∀ r ∈ s.dishIngredients, r.dish ≠ s.nextDishId)
    (hneq : i0 ≠ s.nextIngredientId) :
    (dishSerializerCreate s p).2 = none ∧
    (dishSerializerCreate s p).1.ingredients =
      s.ingredients ++ [⟨s.nextIngredientId, normalizeNameS rawName⟩] ∧
    (dishSerializerCreate s p).1.dishIngredients =
      s.dishIngredients ++ [⟨s.nextDishId, i0, q1, u0⟩, ⟨s.nextDishId, s.nextIngredientId, q2, u0⟩] ∧
    (∀ raw2 r, s.ingredients.find? (fun x => (getSimilarTerms similarGroupsSerializers (normalizeNameS raw2)).any (fun t => iexact x.name t)) = some r →
      getOrCreateIngredient s raw2 = .ok (s, r.id)) ∧
    (∀ raw2 u, s.units.find? (fun x => unitTermMatch (getSimilarTerms similarGroupsSerializers (normalizeNameS raw2)) x) = some u →
      getOrCreateUnit s raw2 = .ok (s, u.id)) := by
  have hco1 : createOneLine (dishInsertStore s p) s.nextDishId ⟨some i0, none, some u0, none, q1⟩ = ({ dishInsertStore s p with dishIngredients := s.dishIngredients ++ [⟨s.nextDishId, i0, q1, u0⟩] }, none) :=
    createLineInsert_ok (dishInsertStore s p) s.nextDishId q1 i0 u0
      (fun r hr hand => hnodi r hr hand.1)
  have hgoc : getOrCreateIngredient ({ dishInsertStore s p with dishIngredients := s.dishIngredients ++ [⟨s.nextDishId, i0, q1, u0⟩] }) rawName = .ok (({ dishInsertStore s p with dishIngredients := s.dishIngredients ++ [⟨s.nextDishId, i0, q1, u0⟩], ingredients := s.ingredients ++ [⟨s.nextIngredientId, normalizeNameS rawName⟩], nextIngredientId := s.nextIngredientId + 1 }), s.nextIngredientId) :=
    getOrCreateIngredient_creates _ rawName hser hmod hexact1 hexact2 hblank hlen
  have hco2 : createOneLine ({ dishInsertStore s p with dishIngredients := s.dishIngredients ++ [⟨s.nextDishId, i0, q1, u0⟩] }) s.nextDishId ⟨none, some rawName, some u0, none, q2⟩ = (({ dishInsertStore s p with dishIngredients := (s.dishIngredients ++ [⟨s.nextDishId, i0, q1, u0⟩]) ++ [⟨s.nextDishId, s.nextIngredientId, q2, u0⟩], ingredients := s.ingredients ++ [⟨s.nextIngredientId, normalizeNameS rawName⟩], nextIngredientId := s.nextIngredientId + 1 }), none) := by
    simp only [createOneLine, hgoc]
    refine createLineInsert_ok _ _ _ _ _ ?_
    intro r hr hand
    rcases List.mem_append.mp hr with hrr | hrr
    · exact hnodi r hrr hand.1
    · simp only [List.mem_singleton] at hrr
      subst hrr
      exact hneq hand.2
  have hmain : dishSerializerCreate s p = (({ dishInsertStore s p with dishIngredients := (s.dishIngredients ++ [⟨s.nextDishId, i0, q1, u0⟩]) ++ [⟨s.nextDishId, s.nextIngredientId, q2, u0⟩], ingredients := s.ingredients ++ [⟨s.nextIngredientId, normalizeNameS rawName⟩], nextIngredientId := s.nextIngredientId + 1 }), none) := by
    simp only [dishSerializerCreate, hfresh, Bool.false_eq_true, if_false, hp1, hp2,
      createLines, createSteps, hco1, hco2]
  refine ⟨?_, ?_, ?_, ?_, ?_⟩
  · rw [hmain]
  · rw [hmain]
  · rw [hmain]
    show (s.dishIngredients ++ [⟨s.nextDishId, i0, q1, u0⟩]) ++ [⟨s.nextDishId, s.nextIngredientId, q2, u0⟩] = _
    rw [List.append_assoc]
    rfl
  · intro raw2 r hf
    exact getOrCreateIngredient_reuses s raw2 r hf
  · intro raw2 u hf
    exact getOrCreateUnit_reuses s raw2 u hf

theorem c9_witness :
    (dishSerializerCreate flourCupStore mixedLinePayload).2 = none ∧
    (dishSerializerCreate flourCupStore mixedLinePayload).1.ingredients =
      flourCupStore.ingredients ++ [⟨2, codes ("sugar")⟩] ∧
    (dishSerializerCreate flourCupStore mixedLinePayload).1.dishIngredients =
      flourCupStore.dishIngredients ++ [⟨5, 1, 200, 1⟩, ⟨5, 2, 50, 1⟩] := by
  have h := c9_two_line_create flourCupStore mixedLinePayload 1 1 200 50
    (codes ("Sugar")) ⟨1, codes ("flour")⟩ rfl rfl (by decide) rfl
    (by decide) (by decide) (by decide) (by decide) (by decide) (by decide)
    (by decide) (by decide) (by decide)
  exact ⟨h.1, h.2.1, h.2.2.1⟩

/-- Claim C8: every operation that persists an `Ingredient` or a `Unit`
stores the name (and, for `Unit`, the abbreviation) normalized — trimmed
and case-folded — so in every store reachable from the empty store
through the application's persistence operations, each `Ingredient` name
and each `Unit` name and abbreviation equals its own normalization. -/
theorem c8_reachable_names_normalized (s : Store) (h : Reach s) : namesNormalized s := by
  induction h with
  | empty =>
    constructor
    · intro r hr
      simp [emptyStore] at hr
    · intro u hu
      simp [emptyStore] at hu
  | ingredientCreate hr hop ih => exact ingredientSaveNew_pres ih hop
  | ingredientUpdate hr hop ih => exact ingredientSaveUpdate_pres ih hop
  | ingredientApiCreate hr hop ih =>
    exact ingredientSaveNew_pres ih (ingredientSerializerCreate_ok hop)
  | ingredientApiUpdate hr hop ih =>
    exact ingredientSaveUpdate_pres ih (ingredientSerializerUpdate_ok hop)
  | unitCreate hr hop ih => exact unitSaveNew_pres ih hop
  | unitUpdate hr hop ih => exact unitSaveUpdate_pres ih hop
  | unitApiCreate hr hop ih =>
    obtain ⟨nm, ab, hsn⟩ := unitSerializerCreate_ok hop
    exact unitSaveNew_pres ih hsn
  | unitApiUpdate hr hop ih =>
    obtain ⟨nm, ab, hsn⟩ := unitSerializerUpdate_ok hop
    exact unitSaveUpdate_pres ih hsn
  | dishCreate p hr ih => exact dishSerializerCreate_pres _ p ih
  | dishUpdate dishId p hr ih => exact dishSerializerUpdate_pres _ dishId p ih
  | groceryCreate hr hop ih =>
    obtain ⟨hi, hu⟩ := grocerySerializerCreate_ok hop
    constructor
    · intro r hrm
      rw [hi] at hrm
      exact ih.1 r hrm
    · intro u hum
      rw [hu] at hum
      exact ih.2 u hum
  | ingredientDrop pk hr ih => exact ingredientDelete_pres _ pk ih
  | unitDrop hr hop ih =>
    obtain ⟨hi, hu⟩ := unitDelete_ok hop
    constructor
    · intro r hrm
      rw [hi] at hrm
      exact ih.1 r hrm
    · intro u hum
      rw [hu] at hum
      exact ih.2 u (List.mem_of_mem_filter hum)
  | dishDrop pk hr ih => exact dishDelete_pres _ pk ih
  | groceryDrop pk hr ih => exact groceryDelete_pres _ pk ih

theorem c8_witness : namesNormalized tomatoesStore :=
  c8_reachable_names_normalized tomatoesStore
    (Reach.ingredientCreate Reach.empty
      (by decide : ingredientSaveNew emptyStore (codes ("Tomatoes")) = .ok (tomatoesStore, 0)))
